import Mathlib

/-!
Verification development for the genieparser sample: the `Ifconfig` CLI parser
(`src/genie/libs/parser/linux/ifconfig.py`), the BigIP
`AnalyticsAsmbypassReportresults` REST reader
(`src/genie/libs/parser/bigip/get_analytics_asm_bypassreport_results.py`),
and the schema descriptors both declare.

The line-oriented parsing loop of `Ifconfig.cli` is embedded over `List Char`.
Each of the nine anchored regular expressions `p1`-`p9` of the source is
translated to an explicit matching function; for the patterns containing
optional groups (`p4`, `p9`) the alternatives are tried in the same priority
order as regex backtracking (greedy option present first).  Python dictionaries
are modelled as insertion-ordered association lists, and the aliasing of the
local variables `intf_dict` / `counter_dict` is modelled by remembering the
interface key they point at; referencing them before assignment (Python's
`UnboundLocalError`) is modelled with `Except`.

Scope notes for the embedding: whitespace is ASCII space (tabs are expanded to
four spaces before stripping, exactly as the source does), `\d` and
`str.isdigit` are ASCII digits, and `str.splitlines` is modelled on the line
boundaries `\n`, `\r\n` and `\r`.
-/

namespace Genie

abbrev Chars := List Char

/-- One tab becomes four spaces: `line.replace('\t', '    ')` in the source. -/
def expandTabs : Chars → Chars
  | [] => []
  | '\t' :: rest => ' ' :: ' ' :: ' ' :: ' ' :: expandTabs rest
  | c :: rest => c :: expandTabs rest

/-- Strip leading and trailing spaces: `line.strip()` after tab expansion. -/
def stripSp (cs : Chars) : Chars :=
  ((cs.dropWhile (· == ' ')).reverse.dropWhile (· == ' ')).reverse

/-- Preprocessing applied to every line of the output before matching. -/
def preL (raw : Chars) : Chars := stripSp (expandTabs raw)

/-- Python `str.splitlines` restricted to the `\n`, `\r\n`, `\r` boundaries. -/
def splitLinesAux : Chars → Chars → List Chars
  | [], acc => if acc.isEmpty then [] else [acc.reverse]
  | '\r' :: '\n' :: cs, acc => acc.reverse :: splitLinesAux cs []
  | '\n' :: cs, acc => acc.reverse :: splitLinesAux cs []
  | '\r' :: cs, acc => acc.reverse :: splitLinesAux cs []
  | c :: cs, acc => splitLinesAux cs (c :: acc)

def splitLinesStr (s : String) : List Chars := splitLinesAux s.data []

/-- Python `str.isdigit` on the strings captured here: nonempty, all digits. -/
def isDigits (cs : Chars) : Bool := !cs.isEmpty && cs.all Char.isDigit

/-- Python `int(...)` on a string of digits. -/
def digitsToNat (cs : Chars) : Nat :=
  cs.foldl (fun n c => n * 10 + (c.toNat - 48)) 0

/-- Split a stripped line into its maximal runs of non-space characters. -/
def tokensAux : Chars → Chars → List Chars
  | [], acc => if acc.isEmpty then [] else [acc.reverse]
  | c :: rest, acc =>
    if c == ' ' then
      (if acc.isEmpty then tokensAux rest [] else acc.reverse :: tokensAux rest [])
    else tokensAux rest (c :: acc)

def tokens (cs : Chars) : List Chars := tokensAux cs []

/-- Consume `' +' ++ \S+`: one or more spaces then a maximal nonempty token.
Returns the token and the remainder of the line. -/
def munchTok (cs : Chars) : Option (Chars × Chars) :=
  match cs with
  | ' ' :: rest =>
    let r := rest.dropWhile (· == ' ')
    let t := r.takeWhile (fun c => !(c == ' '))
    if t.isEmpty then none else some (t, r.drop t.length)
  | _ => none

/-- Consume `' +' ++ lit` where the literal must form a whole token. -/
def munchLit (lit : Chars) (cs : Chars) : Option Chars :=
  match munchTok cs with
  | some (t, r) => if t == lit then some r else none
  | none => none

/-- Consume `' +' ++ \d+` where the digits must form a whole token. -/
def munchDigits (cs : Chars) : Option (Chars × Chars) :=
  match munchTok cs with
  | some (t, r) => if isDigits t then some (t, r) else none
  | none => none

/-- Match a literal at the very start of the line (`^RX`, `^TX`). -/
def litAt (lit cs : Chars) : Option Chars :=
  if cs.take lit.length == lit then some (cs.drop lit.length) else none

/-- Consume `' +\((.*)\)$'`: spaces, an opening parenthesis, then everything up
to a closing parenthesis that must be the last character of the line. -/
def trySuffix (cs : Chars) : Option Chars :=
  match cs with
  | ' ' :: rest =>
    (match rest.dropWhile (· == ' ') with
     | '(' :: r2 =>
       (match r2.reverse with
        | ')' :: midrev => some midrev.reverse
        | _ => none)
     | _ => none)
  | _ => none

/-- First maximal non-space token of a stripped line, plus the remainder. -/
def firstTok (cs : Chars) : Chars × Chars :=
  let t := cs.takeWhile (fun c => !(c == ' '))
  (t, cs.drop t.length)

/-- Capture groups of `p1 = ^(?P<interface>\S+): +flags=(?P<flags>\S+) +mtu +(?P<mtu>\d+)$`. -/
structure P1G where
  iface : Chars
  flags : Chars
  mtu : Chars

/-- `p1`: the line is exactly four tokens: a token of length at least two
ending in a colon (greedy `\S+` backtracks one character for the colon), a
token `flags=...` with a nonempty tail, the literal `mtu`, and digits. -/
def p1Match (cs : Chars) : Option P1G :=
  match tokens cs with
  | [t1, t2, t3, t4] =>
    (match t1.reverse with
     | ':' :: irev =>
       if irev.isEmpty then none
       else if (t2.take 6 == "flags=".data) && decide (6 < t2.length)
               && (t3 == "mtu".data) && isDigits t4 then
         some ⟨irev.reverse, t2.drop 6, t4⟩
       else none
     | _ => none)
  | _ => none

/-- Capture groups of `p2 = ^inet +(\S+) +netmask +(\S+) +broadcast +(\S+)$`. -/
structure P2G where
  ip : Chars
  netmask : Chars
  broadcast : Chars

def p2Match (cs : Chars) : Option P2G :=
  match tokens cs with
  | [t1, ip, t3, nm, t5, bc] =>
    if (t1 == "inet".data) && (t3 == "netmask".data) && (t5 == "broadcast".data) then
      some ⟨ip, nm, bc⟩
    else none
  | _ => none

/-- Capture groups of `p3 = ^inet6 +(\S+) +prefixlen +(\d+) +scopeid +(\S+)$`. -/
structure P3G where
  ip : Chars
  plen : Chars
  scid : Chars

def p3Match (cs : Chars) : Option P3G :=
  match tokens cs with
  | [t1, ip, t3, d, t5, sc] =>
    if (t1 == "inet6".data) && (t3 == "prefixlen".data) && isDigits d
        && (t5 == "scopeid".data) then
      some ⟨ip, d, sc⟩
    else none
  | _ => none

/-- Capture groups of
`p4 = ^(?P<type>\S+)( +(?P<mac>\S+))?( +txqueuelen +(?P<txqueuelen>\d+))? +\((?P<destription>.*)\)$`. -/
structure P4G where
  ty : Chars
  mac : Option Chars
  txq : Option Chars
  desc : Chars

/-- `p4`: the two optional groups are tried in regex backtracking order:
(mac, txqueuelen), (mac), (txqueuelen), (neither). -/
def p4Match (cs : Chars) : Option P4G :=
  let (t1, r) := firstTok cs
  if t1.isEmpty then none
  else
    (do
      let (m, r2) ← munchTok r
      let r3 ← munchLit "txqueuelen".data r2
      let (q, r4) ← munchDigits r3
      let d ← trySuffix r4
      pure (⟨t1, some m, some q, d⟩ : P4G)) <|>
    (do
      let (m, r2) ← munchTok r
      let d ← trySuffix r2
      pure (⟨t1, some m, none, d⟩ : P4G)) <|>
    (do
      let r3 ← munchLit "txqueuelen".data r
      let (q, r4) ← munchDigits r3
      let d ← trySuffix r4
      pure (⟨t1, none, some q, d⟩ : P4G)) <|>
    (do
      let d ← trySuffix r
      pure (⟨t1, none, none, d⟩ : P4G))

/-- Capture groups of `p5 = ^RX +packets +(\d+) +bytes +(\d+) +\((.*)\)$`
(and of `p7`, the same shape with `TX`). -/
structure P5G where
  pk : Chars
  bs : Chars
  value : Chars

def pktsMatch (lead : Chars) (cs : Chars) : Option P5G :=
  match litAt lead cs with
  | none => none
  | some r0 =>
  match munchLit "packets".data r0 with
  | none => none
  | some r1 =>
  match munchDigits r1 with
  | none => none
  | some (pk, r2) =>
  match munchLit "bytes".data r2 with
  | none => none
  | some r3 =>
  match munchDigits r3 with
  | none => none
  | some (bs, r4) =>
  match trySuffix r4 with
  | none => none
  | some v => some ⟨pk, bs, v⟩

def p5Match (cs : Chars) : Option P5G := pktsMatch "RX".data cs

def p7Match (cs : Chars) : Option P5G := pktsMatch "TX".data cs

/-- Capture groups of `p6 = ^RX +errors +(\d+) +dropped +(\d+) +overruns +(\d+) +frame +(\d+)$`. -/
structure P6G where
  er : Chars
  dr : Chars
  ov : Chars
  fr : Chars

def p6Match (cs : Chars) : Option P6G :=
  match tokens cs with
  | [a, b, d1, c, d2, e, d3, f, d4] =>
    if (a == "RX".data) && (b == "errors".data) && (c == "dropped".data)
        && (e == "overruns".data) && (f == "frame".data)
        && isDigits d1 && isDigits d2 && isDigits d3 && isDigits d4 then
      some ⟨d1, d2, d3, d4⟩
    else none
  | _ => none

/-- Capture groups of
`p8 = ^TX +errors +(\d+) +dropped +(\d+) +overruns +(\d+) +carrier +(\d+) +collisions +(\d+)$`. -/
structure P8G where
  er : Chars
  dr : Chars
  ov : Chars
  ca : Chars
  co : Chars

def p8Match (cs : Chars) : Option P8G :=
  match tokens cs with
  | [a, b, d1, c, d2, e, d3, f, d4, g, d5] =>
    if (a == "TX".data) && (b == "errors".data) && (c == "dropped".data)
        && (e == "overruns".data) && (f == "carrier".data) && (g == "collisions".data)
        && isDigits d1 && isDigits d2 && isDigits d3 && isDigits d4 && isDigits d5 then
      some ⟨d1, d2, d3, d4, d5⟩
    else none
  | _ => none

/-- Capture groups of
`p9 = ^device( +interrupt +(?P<device_interrupt>\d+))? +memory +(?P<device_memory>\S+)$`. -/
structure P9G where
  di : Option Chars
  mem : Chars

def p9Match (cs : Chars) : Option P9G :=
  match tokens cs with
  | [a, b, d, c, m] =>
    if (a == "device".data) && (b == "interrupt".data) && isDigits d
        && (c == "memory".data) then
      some ⟨some d, m⟩
    else none
  | [a, b, m] =>
    if (a == "device".data) && (b == "memory".data) then some ⟨none, m⟩ else none
  | _ => none

/-- Runtime values: the nested structures built by the parsers.  Scalars,
ordered sequences and insertion-ordered mappings, as decoded from text capture
groups or JSON (floating-point scalars are not needed by any claim and are
omitted). -/
inductive Val where
  | str : String → Val
  | int : Int → Val
  | bool : Bool → Val
  | null : Val
  | list : List Val → Val
  | map : List (String × Val) → Val

/-- Python dictionaries are modelled as insertion-ordered association lists. -/
abbrev Dict := List (String × Val)

/-- Key lookup in a dictionary. -/
def lookupD : Dict → String → Option Val
  | [], _ => none
  | (k', v) :: rest, k => if k' = k then some v else lookupD rest k

/-- `d[k] = v`: replace in place if the key exists, else append at the end
(Python dict insertion-order semantics). -/
def dictSet (d : Dict) (k : String) (v : Val) : Dict :=
  match d with
  | [] => [(k, v)]
  | (k', v') :: rest => if k' = k then (k, v) :: rest else (k', v') :: dictSet rest k v

/-- `d.update(kvs)`: apply `dictSet` for each pair in order. -/
def dictUpdate (d : Dict) (kvs : List (String × Val)) : Dict :=
  kvs.foldl (fun d kv => dictSet d kv.1 kv.2) d

/-- `d.setdefault(k, v0)` restricted to its effect on the dictionary: append
`(k, v0)` at the end if `k` is absent, leave `d` unchanged otherwise. -/
def dictEnsure (d : Dict) (k : String) (v0 : Val) : Dict :=
  match d with
  | [] => [(k, v0)]
  | (k', v) :: rest => if k' = k then (k', v) :: rest else (k', v) :: dictEnsure rest k v0

/-- Mutate the value stored under `k` in place (used to model updates through
the aliases `intf_dict` / `counter_dict` / `ipv4_dict` / `ipv6_dict`). -/
def dictModify (d : Dict) (k : String) (f : Val → Val) : Dict :=
  match d with
  | [] => []
  | (k', v) :: rest => if k' = k then (k', f v) :: rest else (k', v) :: dictModify rest k f

/-- Apply a dictionary transformation to a value known to be a mapping. -/
def mapVal (f : Dict → Dict) : Val → Val
  | .map d => .map (f d)
  | v => v

/-- `int(v) if v.isdigit() else v` applied to a capture group. -/
def coerce (cs : Chars) : Val :=
  if isDigits cs then .int (digitsToNat cs) else .str ⟨cs⟩

/-- Referencing `intf_dict` / `counter_dict` before any line has bound them
raises `UnboundLocalError` in Python; the embedding returns this error. -/
inductive CliErr where
  | intfUnbound : CliErr
  | counterUnbound : CliErr

/-- State of the parsing loop: the result dictionary under construction, the
interface `intf_dict` currently aliases (set by the last `p1` header line) and
the interface whose `counters` sub-dictionary `counter_dict` currently aliases
(set by the last `p5`/`p7` line). -/
structure St where
  result : Dict
  curIntf : Option String
  curCounter : Option String

def initSt : St := ⟨[], none, none⟩

/-- Update the interface dictionary `intf_dict` currently in scope. -/
def onIntf (st : St) (f : Dict → Dict) : Except CliErr St :=
  match st.curIntf with
  | some i => .ok { st with result := dictModify st.result i (mapVal f) }
  | none => .error .intfUnbound

/-- Update the counters dictionary `counter_dict` currently in scope. -/
def onCounter (st : St) (f : Dict → Dict) : Except CliErr St :=
  match st.curCounter with
  | some i =>
    .ok { st with result := dictModify st.result i (mapVal fun d => dictModify d "counters" (mapVal f)) }
  | none => .error .counterUnbound

/-- `counter_dict = intf_dict.setdefault('counters', {})` followed by an
update: rebinds `counter_dict` to the current interface's counters. -/
def onIntfCtr (st : St) (f : Dict → Dict) : Except CliErr St :=
  match st.curIntf with
  | some i =>
    .ok { result := dictModify st.result i
            (mapVal fun d => dictModify (dictEnsure d "counters" (.map [])) "counters" (mapVal f)),
          curIntf := some i, curCounter := some i }
  | none => .error .intfUnbound

/-- `intf_dict.setdefault(outer, {}).setdefault(inner, {}).update(kvs)`. -/
def nestUpd (d : Dict) (outer inner : String) (kvs : List (String × Val)) : Dict :=
  dictModify (dictEnsure d outer (.map [])) outer
    (mapVal fun m => dictModify (dictEnsure m inner (.map [])) inner
      (mapVal fun e => dictUpdate e kvs))

/-- Body of the `p1` header branch on `intf_dict`: the capture groups with
digit strings coerced to int, in group order. -/
def hdrF (g : P1G) (d : Dict) : Dict :=
  dictUpdate d [("interface", coerce g.iface), ("flags", coerce g.flags), ("mtu", coerce g.mtu)]

/-- State after the `p1` header branch: insert/reuse the interface entry,
update it with the coerced header groups, and rebind `intf_dict`. -/
def p1St (st : St) (g : P1G) : St :=
  { result := dictModify (dictEnsure st.result ⟨g.iface⟩ (.map [])) ⟨g.iface⟩ (mapVal (hdrF g)),
    curIntf := some ⟨g.iface⟩, curCounter := st.curCounter }

/-- Body of the `p2` branch: `ipv4` per-address update, values kept raw. -/
def p2F (g : P2G) (d : Dict) : Dict :=
  nestUpd d "ipv4" ⟨g.ip⟩
    [("ip", .str ⟨g.ip⟩), ("netmask", .str ⟨g.netmask⟩), ("broadcast", .str ⟨g.broadcast⟩)]

/-- Body of the `p3` branch: `ipv6` per-address update with digit coercion. -/
def p3F (g : P3G) (d : Dict) : Dict :=
  nestUpd d "ipv6" ⟨g.ip⟩
    [("ip", coerce g.ip), ("prefixlen", coerce g.plen), ("scopeid", coerce g.scid)]

/-- `if mac: intf_dict.update({'mac': mac})` (a matched `\S+` group is a
nonempty string, hence truthy exactly when present). -/
def setOptMac : Option Chars → Dict → Dict
  | some m, d => dictSet d "mac" (Val.str ⟨m⟩)
  | none, d => d

/-- `if txqueuelen: intf_dict.update({'txqueuelen': int(txqueuelen)})` (a
matched `\d+` group is nonempty, hence truthy exactly when present). -/
def setOptTxq : Option Chars → Dict → Dict
  | some q, d => dictSet d "txqueuelen" (Val.int (digitsToNat q))
  | none, d => d

/-- Body of the `p4` branch: type/destription always, then mac and
txqueuelen only when their optional groups are present. -/
def p4F (g : P4G) (d : Dict) : Dict :=
  setOptTxq g.txq (setOptMac g.mac
    (dictUpdate d [("type", .str ⟨g.ty⟩), ("destription", .str ⟨g.desc⟩)]))

/-- Body of the `p5` branch on `counter_dict`. -/
def p5F (g : P5G) (c : Dict) : Dict :=
  dictUpdate c [("rx_pkts", coerce g.pk), ("rx_bytes", coerce g.bs), ("rx_value", coerce g.value)]

/-- Body of the `p6` branch on `counter_dict`: unconditional `int(v)`. -/
def p6F (g : P6G) (c : Dict) : Dict :=
  dictUpdate c
    [("rx_errors", .int (digitsToNat g.er)), ("rx_dropped", .int (digitsToNat g.dr)),
     ("rx_overruns", .int (digitsToNat g.ov)), ("rx_frame", .int (digitsToNat g.fr))]

/-- Body of the `p7` branch on `counter_dict`. -/
def p7F (g : P5G) (c : Dict) : Dict :=
  dictUpdate c [("tx_pkts", coerce g.pk), ("tx_bytes", coerce g.bs), ("tx_value", coerce g.value)]

/-- Body of the `p8` branch on `counter_dict`: unconditional `int(v)`. -/
def p8F (g : P8G) (c : Dict) : Dict :=
  dictUpdate c
    [("tx_errors", .int (digitsToNat g.er)), ("tx_dropped", .int (digitsToNat g.dr)),
     ("tx_overruns", .int (digitsToNat g.ov)), ("tx_carrier", .int (digitsToNat g.ca)),
     ("tx_collisions", .int (digitsToNat g.co))]

/-- `if interrupt: intf_dict.update({'device_interrupt': int(interrupt)})`. -/
def setOptDevInt : Option Chars → Dict → Dict
  | some q, d => dictSet d "device_interrupt" (Val.int (digitsToNat q))
  | none, d => d

/-- Body of the `p9` branch: interrupt only when its group matched, memory
always (its `\S+` group is nonempty, hence truthy). -/
def p9F (g : P9G) (d : Dict) : Dict :=
  dictSet (setOptDevInt g.di d) "device_memory" (.str ⟨g.mem⟩)

/-- One iteration of the `for line in out.splitlines()` loop of
`Ifconfig.cli`: preprocess the line, skip it if empty, then try the patterns
`p1`..`p9` in order, executing the body of the first that matches. -/
def step (st : St) (raw : Chars) : Except CliErr St :=
  let cs := preL raw
  if cs.isEmpty then .ok st
  else
    match p1Match cs with
    | some g => .ok (p1St st g)
    | none =>
    match p2Match cs with
    | some g => onIntf st (p2F g)
    | none =>
    match p3Match cs with
    | some g => onIntf st (p3F g)
    | none =>
    match p4Match cs with
    | some g => onIntf st (p4F g)
    | none =>
    match p5Match cs with
    | some g => onIntfCtr st (p5F g)
    | none =>
    match p6Match cs with
    | some g => onCounter st (p6F g)
    | none =>
    match p7Match cs with
    | some g => onIntfCtr st (p7F g)
    | none =>
    match p8Match cs with
    | some g => onCounter st (p8F g)
    | none =>
    match p9Match cs with
    | some g => onIntf st (p9F g)
    | none => .ok st

/-- Run the loop over the remaining lines. -/
def runSt (st : St) : List Chars → Except CliErr St
  | [] => .ok st
  | l :: ls =>
    match step st l with
    | .ok st' => runSt st' ls
    | .error e => .error e

/-- `Ifconfig.cli` on an already-supplied output, starting from the empty
`result_dict`. -/
def cliParse (lines : List Chars) : Except CliErr Dict :=
  (runSt initSt lines).map St.result

/-- `Ifconfig.cli` applied to an output string. -/
def runOut (out : String) : Except CliErr Dict := cliParse (splitLinesStr out)

/-- The whole `Ifconfig.cli` method: when `output` is `none` the command is
built from `cli_command` and sent to the device, otherwise the supplied output
is parsed directly.  The second component records the commands executed on the
device during the call. -/
def ifconfigCliCall (execute : String → String) (intf : Option String)
    (output : Option String) : Except CliErr Dict × List String :=
  match output with
  | some out => (runOut out, [])
  | none =>
    let cmd := match intf with
      | some i => if i.isEmpty then "ifconfig" else "ifconfig " ++ i
      | none => "ifconfig"
    (runOut (execute cmd), [cmd])

/-- Scalar kinds appearing as leaf constraints in the descriptors under
verification (`str`, `int`). -/
inductive SKind where
  | sstr : SKind
  | sint : SKind

/-- Kind of an actual runtime value, reported in `TypeMismatch` errors. -/
inductive VKind where
  | kstr : VKind
  | kint : VKind
  | kbool : VKind
  | knull : VKind
  | klist : VKind
  | kmap : VKind

def vkind : Val → VKind
  | .str _ => .kstr
  | .int _ => .kint
  | .bool _ => .kbool
  | .null => .knull
  | .list _ => .klist
  | .map _ => .kmap

/-- Modelled from the spec: the `KeyMatcher` variants `Literal`, `Optional`
and `Wildcard` of the schema engine (`genie.metaparser.util.schemaengine`,
which is not part of the source sample). -/
inductive KeyM where
  | lit : String → KeyM
  | opt : String → KeyM
  | wild : KeyM

mutual
/-- Modelled from the spec: the Schema Descriptor tagged union
(`ScalarType(kind)` and `MappingOf(keySpecs)`; the descriptors under
verification contain no `SequenceOf`, which is therefore omitted).  The
implementation (`genie.metaparser.util.schemaengine.Schema`) is not in the
source sample. -/
inductive Sch where
  | scalar : SKind → Sch
  | mapping : Specs → Sch

/-- Modelled from the spec: the ordered collection of
(KeyMatcher, valueDescriptor) pairs of a `MappingOf`. -/
inductive Specs where
  | nil : Specs
  | cons : KeyM → Sch → Specs → Specs
end

/-- Modelled from the spec: the path-qualified validation error variants. -/
inductive PErr where
  | typeMismatch (path : List String) (expected : SKind) (actual : VKind) : PErr
  | shapeMismatch (path : List String) : PErr
  | missingKey (path : List String) (name : String) : PErr
  | unexpectedKey (path : List String) (name : String) : PErr

/-- Names claimed by `Literal` / `Optional` matchers at one mapping level. -/
def litOptNames : Specs → List String
  | .nil => []
  | .cons (.lit n) _ rest => n :: litOptNames rest
  | .cons (.opt n) _ rest => n :: litOptNames rest
  | .cons .wild _ rest => litOptNames rest

/-- Whether a `Wildcard` matcher exists at this mapping level. -/
def hasWild : Specs → Bool
  | .nil => false
  | .cons .wild _ _ => true
  | .cons _ _ rest => hasWild rest

/-- Actual keys not claimed by any `Literal` / `Optional` matcher, in the
order they appear in the actual value. -/
def leftover (all : Specs) (kvs : List (String × Val)) : List (String × Val) :=
  kvs.filter (fun kv => !((litOptNames all).contains kv.1))

/-- Modelled from the spec: the `ScalarType(kind)` leaf check — the value
must be exactly of the named primitive kind, no coercion. -/
def scalarErrs (k : SKind) (path : List String) (v : Val) : List PErr :=
  match k, v with
  | .sstr, .str _ => []
  | .sint, .int _ => []
  | k, v => [.typeMismatch path k (vkind v)]

/-- Validate each wildcard-matched (key, value) pair against the wildcard's
value descriptor. -/
def wildErrs (rec : Sch → List String → Val → List PErr) (d : Sch)
    (path : List String) : List (String × Val) → List PErr
  | [] => []
  | kv :: rest => rec d (path ++ [kv.1]) kv.2 ++ wildErrs rec d path rest

/-- Modelled from the spec (Key Resolution Policy): walk the key specs in
declaration order; a present `Literal`/`Optional` key is validated recursively
via `rec`, a missing `Literal` emits `MissingRequiredKey`, a missing
`Optional` emits nothing, and a `Wildcard` validates every leftover actual
key against its descriptor. -/
def specsErrs (rec : Sch → List String → Val → List PErr) (all : Specs) :
    Specs → List String → List (String × Val) → List PErr
  | .nil, _, _ => []
  | .cons km d rest, path, kvs =>
    (match km with
     | .lit n =>
       (match lookupD kvs n with
        | some v => rec d (path ++ [n]) v
        | none => [.missingKey path n])
     | .opt n =>
       (match lookupD kvs n with
        | some v => rec d (path ++ [n]) v
        | none => [])
     | .wild => wildErrs rec d path (leftover all kvs))
    ++ specsErrs rec all rest path kvs

mutual
/-- Nesting depth of a descriptor: the validation recursion descends the
descriptor strictly, so this depth bounds its call depth. -/
def sdepth : Sch → Nat
  | .scalar _ => 1
  | .mapping sp => sdepthS sp + 1

def sdepthS : Specs → Nat
  | .nil => 0
  | .cons _ d rest => Nat.max (sdepth d) (sdepthS rest)
end

/-- Modelled from the spec: the Matcher Engine, recursive descent with
structural dispatch on the descriptor's kind.  The engine recurses only into
sub-descriptors, so the `fuel` argument (instantiated with the descriptor's
depth in `validate`) is never exhausted; it only makes the recursion
structural. -/
def goV : Nat → Sch → List String → Val → List PErr
  | 0, _, _, _ => []
  | fuel + 1, d, path, v =>
    match d with
    | .scalar k => scalarErrs k path v
    | .mapping specs =>
      match v with
      | .map kvs =>
        specsErrs (goV fuel) specs specs path kvs
          ++ (if hasWild specs then []
              else (leftover specs kvs).map fun kv => .unexpectedKey path kv.1)
      | _ => [.shapeMismatch path]

/-- Modelled from the spec: `validate(v, d)` producing the ordered error
list (depth-first, declared keys in declaration order, then leftover keys in
value order). -/
def validate (d : Sch) (path : List String) (v : Val) : List PErr :=
  goV (sdepth d) d path v

/-- Modelled from the spec: `ValidationResult{ok, errors}` with `ok` true
iff the error sequence is empty. -/
structure VResult where
  ok : Bool
  errors : List PErr

def validateR (d : Sch) (v : Val) : VResult :=
  let e := validate d [] v
  ⟨e.isEmpty, e⟩

/-- The `counters` sub-descriptor of `IfconfigSchema.schema`. -/
def countersSchema : Sch := .mapping
  (.cons (.lit "rx_pkts") (.scalar .sint)
  (.cons (.lit "rx_bytes") (.scalar .sint)
  (.cons (.lit "rx_value") (.scalar .sstr)
  (.cons (.lit "rx_errors") (.scalar .sint)
  (.cons (.lit "rx_dropped") (.scalar .sint)
  (.cons (.lit "rx_overruns") (.scalar .sint)
  (.cons (.lit "rx_frame") (.scalar .sint)
  (.cons (.lit "tx_pkts") (.scalar .sint)
  (.cons (.lit "tx_bytes") (.scalar .sint)
  (.cons (.lit "tx_value") (.scalar .sstr)
  (.cons (.lit "tx_errors") (.scalar .sint)
  (.cons (.lit "tx_dropped") (.scalar .sint)
  (.cons (.lit "tx_overruns") (.scalar .sint)
  (.cons (.lit "tx_carrier") (.scalar .sint)
  (.cons (.lit "tx_collisions") (.scalar .sint)
  .nil)))))))))))))))

/-- The `Optional('ipv4')` sub-descriptor of `IfconfigSchema.schema`. -/
def ipv4Schema : Sch := .mapping
  (.cons .wild (.mapping
    (.cons (.lit "ip") (.scalar .sstr)
    (.cons (.lit "netmask") (.scalar .sstr)
    (.cons (.lit "broadcast") (.scalar .sstr)
    .nil))))
  .nil)

/-- The `Optional('ipv6')` sub-descriptor of `IfconfigSchema.schema`. -/
def ipv6Schema : Sch := .mapping
  (.cons .wild (.mapping
    (.cons (.lit "ip") (.scalar .sstr)
    (.cons (.lit "prefixlen") (.scalar .sint)
    (.cons (.lit "scopeid") (.scalar .sstr)
    .nil))))
  .nil)

/-- The per-interface level of `IfconfigSchema.schema`, keys in declaration
order. -/
def intfSpecs : Specs :=
  .cons (.lit "interface") (.scalar .sstr)
  (.cons (.lit "flags") (.scalar .sstr)
  (.cons (.lit "mtu") (.scalar .sint)
  (.cons (.opt "ipv4") ipv4Schema
  (.cons (.opt "ipv6") ipv6Schema
  (.cons (.lit "type") (.scalar .sstr)
  (.cons (.opt "txqueuelen") (.scalar .sint)
  (.cons (.opt "mac") (.scalar .sstr)
  (.cons (.lit "destription") (.scalar .sstr)
  (.cons (.lit "counters") countersSchema
  (.cons (.opt "device_interrupt") (.scalar .sint)
  (.cons (.opt "device_memory") (.scalar .sstr)
  .nil)))))))))))

def intfSchema : Sch := .mapping intfSpecs

/-- `IfconfigSchema.schema`: `{Any(): {...}}`. -/
def ifconfigSchema : Sch := .mapping (.cons .wild intfSchema .nil)

/-- `AnalyticsAsmbypassReportresultsSchema.schema`: the empty descriptor `{}`. -/
def analyticsSchema : Sch := .mapping .nil

/-- A mapping descriptor whose single entry is the literal key `mtu` with
scalar type int, as declared at the interface level of `IfconfigSchema`. -/
def mtuSchema : Sch := .mapping (.cons (.lit "mtu") (.scalar .sint) .nil)

/-- Boolean no-duplicates check on a list of key names. -/
def nodupStr : List String → Bool
  | [] => true
  | s :: rest => !rest.contains s && nodupStr rest

/-- Number of `Wildcard` matchers at one mapping level. -/
def countWild : Specs → Nat
  | .nil => 0
  | .cons .wild _ rest => countWild rest + 1
  | .cons _ _ rest => countWild rest

mutual
/-- The spec's descriptor-construction invariants, checked recursively: at
most one wildcard per mapping level, and `Literal`/`Optional` key names
mutually unique within each level. -/
def wfSch : Sch → Bool
  | .scalar _ => true
  | .mapping sp => Nat.ble (countWild sp) 1 && nodupStr (litOptNames sp) && wfSpecs sp

def wfSpecs : Specs → Bool
  | .nil => true
  | .cons _ d rest => wfSch d && wfSpecs rest
end

/-- Python truthiness of a decoded JSON value (`if not response_json`). -/
def pyTruthy : Val → Bool
  | .null => false
  | .bool b => b
  | .int n => !(n == 0)
  | .str s => !s.isEmpty
  | .list l => !l.isEmpty
  | .map d => !d.isEmpty

/-- The body of `AnalyticsAsmbypassReportresults.rest` after the response has
been decoded: `if not response_json: return {}` then `return response_json`. -/
def restResult (responseJson : Val) : Val :=
  if pyTruthy responseJson then responseJson else .map []

def restCmd : String := "/mgmt/tm/analytics/asm-bypass/report-results"

/-- The whole `rest` method: fetch `cli_command` from the device, decode, and
apply `restResult`.  `get` models `self.device.get(...).json()`. -/
def restCall (get : String → Val) : Val := restResult (get restCmd)

/-- The interface-level keys that `IfconfigSchema` declares as `int`. -/
def intfIntNames : List String := ["mtu", "txqueuelen", "device_interrupt"]

/-- The `counters` keys that `IfconfigSchema` declares as `int`. -/
def ctrIntNames : List String :=
  ["rx_pkts", "rx_bytes", "rx_errors", "rx_dropped", "rx_overruns", "rx_frame",
   "tx_pkts", "tx_bytes", "tx_errors", "tx_dropped", "tx_overruns", "tx_carrier",
   "tx_collisions"]

/-- Counter-level value property: every key declared `int` holds an integer. -/
def ctrP (g : String) (w : Val) : Prop := g ∈ ctrIntNames → ∃ n, w = Val.int n

/-- A counters dictionary whose int-declared fields all hold integers. -/
def ctrOKd (c : Dict) : Prop := ∀ g w, lookupD c g = some w → ctrP g w

/-- Per-address `ipv6` value property: `prefixlen` holds an integer. -/
def ip6P (w : Val) : Prop :=
  ∀ de, w = Val.map de → ∀ f u, lookupD de f = some u → f = "prefixlen" → ∃ n, u = Val.int n

/-- An `ipv6` dictionary each of whose address records satisfies `ip6P`. -/
def ip6OKd (m : Dict) : Prop := ∀ g w, lookupD m g = some w → ip6P w

/-- Interface-level value property for claim C1: the keys declared `int`
hold integers, the `counters` mapping satisfies `ctrOKd`, and the `ipv6`
mapping satisfies `ip6OKd`. -/
def intfP (f : String) (v : Val) : Prop :=
  (f ∈ intfIntNames → ∃ n, v = Val.int n)
  ∧ (f = "counters" → ∀ c, v = Val.map c → ctrOKd c)
  ∧ (f = "ipv6" → ∀ m, v = Val.map m → ip6OKd m)

/-- An interface record whose fields all satisfy `intfP`. -/
def intfOKd (d : Dict) : Prop := ∀ f w, lookupD d f = some w → intfP f w

/-- Claim C1's property of a parse result: every interface record satisfies
`intfP` on each of its fields. -/
def resultIntOK (res : Dict) : Prop :=
  ∀ i v, lookupD res i = some v → ∀ d, v = Val.map d → intfOKd d

/-- Interface-record property for claim C9: the value under `interface` is
the coercion of the record's own key, and the value under `flags` is either a
non-digit string or an integer. -/
def hdrP (i : String) (f : String) (w : Val) : Prop :=
  (f = "interface" → w = coerce i.data)
  ∧ (f = "flags" → (∃ s, w = Val.str s ∧ isDigits s.data = false) ∨ ∃ n, w = Val.int n)

/-- An interface record whose fields all satisfy `hdrP` for its own key. -/
def hdrOKd (i : String) (d : Dict) : Prop := ∀ f w, lookupD d f = some w → hdrP i f w

/-- Claim C9's property of a parse result. -/
def resultHdrOK (res : Dict) : Prop :=
  ∀ i v, lookupD res i = some v → ∀ d, v = Val.map d → hdrOKd i d

/-- A line on which the loop body does nothing: blank after preprocessing, or
matching none of `p1`..`p9`. -/
def noMatchLine (raw : Chars) : Bool :=
  let cs := preL raw
  cs.isEmpty ||
    ((p1Match cs).isNone && (p2Match cs).isNone && (p3Match cs).isNone
      && (p4Match cs).isNone && (p5Match cs).isNone && (p6Match cs).isNone
      && (p7Match cs).isNone && (p8Match cs).isNone && (p9Match cs).isNone)

/-! Lookup behaviour of the dictionary operations. -/

theorem lookupD_dictSet (d : Dict) (k : String) (v : Val) (k' : String) :
    lookupD (dictSet d k v) k' = if k = k' then some v else lookupD d k' := by
  induction d with
  | nil => simp [dictSet, lookupD]
  | cons kv rest ih =>
    obtain ⟨k0, v0⟩ := kv
    by_cases h0 : k0 = k
    · subst h0
      by_cases h1 : k0 = k'
      · subst h1; simp [dictSet, lookupD]
      · simp [dictSet, lookupD, h1]
    · by_cases h1 : k0 = k'
      · subst h1
        have hkk : k ≠ k0 := fun h => h0 h.symm
        simp [dictSet, lookupD, h0, hkk]
      · simp [dictSet, lookupD, h0, h1, ih]

theorem lookupD_dictEnsure (d : Dict) (k : String) (v0 : Val) (k' : String) :
    lookupD (dictEnsure d k v0) k' =
      if k = k' then some ((lookupD d k).getD v0) else lookupD d k' := by
  induction d with
  | nil => simp [dictEnsure, lookupD]
  | cons kv rest ih =>
    obtain ⟨k0, w⟩ := kv
    by_cases h0 : k0 = k
    · subst h0
      by_cases h1 : k0 = k'
      · subst h1; simp [dictEnsure, lookupD]
      · simp [dictEnsure, lookupD, h1]
    · by_cases h1 : k0 = k'
      · subst h1
        have hkk : k ≠ k0 := fun h => h0 h.symm
        simp [dictEnsure, lookupD, h0, hkk]
      · simp [dictEnsure, lookupD, h0, h1, ih]

theorem lookupD_dictModify (d : Dict) (k : String) (f : Val → Val) (k' : String) :
    lookupD (dictModify d k f) k' =
      if k = k' then (lookupD d k).map f else lookupD d k' := by
  induction d with
  | nil => simp [dictModify, lookupD]
  | cons kv rest ih =>
    obtain ⟨k0, w⟩ := kv
    by_cases h0 : k0 = k
    · subst h0
      by_cases h1 : k0 = k'
      · subst h1; simp [dictModify, lookupD]
      · simp [dictModify, lookupD, h1]
    · by_cases h1 : k0 = k'
      · subst h1
        have hkk : k ≠ k0 := fun h => h0 h.symm
        simp [dictModify, lookupD, h0, hkk]
      · simp [dictModify, lookupD, h0, h1, ih]

/-! Pointwise preservation of a per-key property through the dictionary
operations. -/

theorem pwAll_set {P : String → Val → Prop} {d : Dict} {k : String} {v : Val}
    (hd : ∀ f w, lookupD d f = some w → P f w) (hk : P k v) :
    ∀ f w, lookupD (dictSet d k v) f = some w → P f w := by
  intro f w h
  rw [lookupD_dictSet] at h
  split at h
  · cases h
    next heq => exact heq ▸ hk
  · exact hd f w h

theorem pwAll_ensure {P : String → Val → Prop} {d : Dict} {k : String} {v0 : Val}
    (hd : ∀ f w, lookupD d f = some w → P f w) (hk : P k v0) :
    ∀ f w, lookupD (dictEnsure d k v0) f = some w → P f w := by
  intro f w h
  rw [lookupD_dictEnsure] at h
  split at h
  · next heq =>
    cases hold : lookupD d k with
    | none => rw [hold] at h; cases h; exact heq ▸ hk
    | some u => rw [hold] at h; cases h; exact heq ▸ hd k u hold
  · exact hd f w h

theorem pwAll_modify {P : String → Val → Prop} {d : Dict} {k : String} {g : Val → Val}
    (hd : ∀ f w, lookupD d f = some w → P f w) (hg : ∀ w, P k w → P k (g w)) :
    ∀ f w, lookupD (dictModify d k g) f = some w → P f w := by
  intro f w h
  rw [lookupD_dictModify] at h
  split at h
  · next heq =>
    cases hold : lookupD d k with
    | none => rw [hold] at h; cases h
    | some u => rw [hold] at h; cases h; exact heq ▸ hg u (hd k u hold)
  · exact hd f w h

theorem pwAll_update {P : String → Val → Prop} :
    ∀ (kvs : List (String × Val)) (d : Dict),
      (∀ f w, lookupD d f = some w → P f w) → (∀ kv ∈ kvs, P kv.1 kv.2) →
      ∀ f w, lookupD (dictUpdate d kvs) f = some w → P f w := by
  intro kvs
  induction kvs with
  | nil => intro d hd _; simpa [dictUpdate] using hd
  | cons kv rest ih =>
    intro d hd hkvs
    have h1 : ∀ f w, lookupD (dictSet d kv.1 kv.2) f = some w → P f w :=
      pwAll_set hd (hkvs kv (by simp))
    have h2 : ∀ kv' ∈ rest, P kv'.1 kv'.2 := fun kv' h => hkvs kv' (by simp [h])
    have := ih (dictSet d kv.1 kv.2) h1 h2
    simpa [dictUpdate, List.foldl_cons] using this

/-! Destructors for the branch helpers and a case analysis of `step`. -/

theorem onIntf_ok {st st' : St} {f : Dict → Dict} (h : onIntf st f = .ok st') :
    ∃ i, st.curIntf = some i ∧
      st' = { st with result := dictModify st.result i (mapVal f) } := by
  unfold onIntf at h
  split at h
  · next i hi => injection h with h; exact ⟨i, hi, h.symm⟩
  · exact Except.noConfusion h

theorem onCounter_ok {st st' : St} {f : Dict → Dict} (h : onCounter st f = .ok st') :
    ∃ i, st.curCounter = some i ∧
      st' = { st with result := dictModify st.result i (mapVal fun d =>
                dictModify d "counters" (mapVal f)) } := by
  unfold onCounter at h
  split at h
  · next i hi => injection h with h; exact ⟨i, hi, h.symm⟩
  · exact Except.noConfusion h

theorem onIntfCtr_ok {st st' : St} {f : Dict → Dict} (h : onIntfCtr st f = .ok st') :
    ∃ i, st.curIntf = some i ∧
      st' = { result := dictModify st.result i (mapVal fun d =>
                dictModify (dictEnsure d "counters" (.map [])) "counters" (mapVal f)),
              curIntf := some i, curCounter := some i } := by
  unfold onIntfCtr at h
  split at h
  · next i hi => injection h with h; exact ⟨i, hi, h.symm⟩
  · exact Except.noConfusion h

theorem step_ok_cases {st st' : St} {raw : Chars} (h : step st raw = .ok st') :
    st' = st
    ∨ (∃ g, p1Match (preL raw) = some g ∧ st' = p1St st g)
    ∨ (∃ g, p2Match (preL raw) = some g ∧ onIntf st (p2F g) = .ok st')
    ∨ (∃ g, p3Match (preL raw) = some g ∧ onIntf st (p3F g) = .ok st')
    ∨ (∃ g, p4Match (preL raw) = some g ∧ onIntf st (p4F g) = .ok st')
    ∨ (∃ g, p5Match (preL raw) = some g ∧ onIntfCtr st (p5F g) = .ok st')
    ∨ (∃ g, p6Match (preL raw) = some g ∧ onCounter st (p6F g) = .ok st')
    ∨ (∃ g, p7Match (preL raw) = some g ∧ onIntfCtr st (p7F g) = .ok st')
    ∨ (∃ g, p8Match (preL raw) = some g ∧ onCounter st (p8F g) = .ok st')
    ∨ (∃ g, p9Match (preL raw) = some g ∧ onIntf st (p9F g) = .ok st') := by
  simp only [step] at h
  split at h
  · injection h with h; exact Or.inl h.symm
  · split at h
    next g hg =>
      injection h with h
      exact Or.inr (Or.inl ⟨g, hg, h.symm⟩)
    next =>
    split at h
    next g hg => exact Or.inr (Or.inr (Or.inl ⟨g, hg, h⟩))
    next =>
    split at h
    next g hg => exact Or.inr (Or.inr (Or.inr (Or.inl ⟨g, hg, h⟩)))
    next =>
    split at h
    next g hg => exact Or.inr (Or.inr (Or.inr (Or.inr (Or.inl ⟨g, hg, h⟩))))
    next =>
    split at h
    next g hg => exact Or.inr (Or.inr (Or.inr (Or.inr (Or.inr (Or.inl ⟨g, hg, h⟩)))))
    next =>
    split at h
    next g hg =>
      exact Or.inr (Or.inr (Or.inr (Or.inr (Or.inr (Or.inr (Or.inl ⟨g, hg, h⟩))))))
    next =>
    split at h
    next g hg =>
      exact Or.inr (Or.inr (Or.inr (Or.inr (Or.inr (Or.inr (Or.inr (Or.inl ⟨g, hg, h⟩)))))))
    next =>
    split at h
    next g hg =>
      exact Or.inr (Or.inr (Or.inr (Or.inr (Or.inr (Or.inr (Or.inr (Or.inr
        (Or.inl ⟨g, hg, h⟩))))))))
    next =>
    split at h
    next g hg =>
      exact Or.inr (Or.inr (Or.inr (Or.inr (Or.inr (Or.inr (Or.inr (Or.inr (Or.inr
        ⟨g, hg, h⟩))))))))
    next => injection h with h; exact Or.inl h.symm

/-- A line matching none of the patterns leaves the state untouched. -/
theorem step_noMatch {raw : Chars} (h : noMatchLine raw = true) (st : St) :
    step st raw = .ok st := by
  simp only [noMatchLine, Bool.or_eq_true, Bool.and_eq_true,
    Option.isNone_iff_eq_none] at h
  simp only [step]
  rcases h with h | ⟨⟨⟨⟨⟨⟨⟨⟨h1, h2⟩, h3⟩, h4⟩, h5⟩, h6⟩, h7⟩, h8⟩, h9⟩
  · simp [h]
  · split
    · rfl
    · rw [h1, h2, h3, h4, h5, h6, h7, h8, h9]

theorem runSt_append_ok {xs ys : List Chars} {st stf : St}
    (h : runSt st (xs ++ ys) = .ok stf) :
    ∃ stm, runSt st xs = .ok stm ∧ runSt stm ys = .ok stf := by
  induction xs generalizing st with
  | nil => exact ⟨st, rfl, by simpa using h⟩
  | cons l ls ih =>
    rw [List.cons_append] at h
    simp only [runSt] at h ⊢
    cases hstep : step st l with
    | ok st1 =>
      rw [hstep] at h
      obtain ⟨stm, h1, h2⟩ := ih h
      exact ⟨stm, h1, h2⟩
    | error e =>
      rw [hstep] at h
      exact Except.noConfusion h

theorem runSt_noMatch {lines : List Chars} (h : ∀ l ∈ lines, noMatchLine l = true)
    (st : St) : runSt st lines = .ok st := by
  induction lines with
  | nil => rfl
  | cons l ls ih =>
    simp only [runSt]
    rw [step_noMatch (h l (by simp)) st]
    exact ih fun l' hl' => h l' (by simp [hl'])

/-! Facts extracted from successful matches. -/

theorem coerce_digits {cs : Chars} (h : isDigits cs = true) :
    coerce cs = .int (digitsToNat cs) := by
  simp [coerce, h]

theorem coerce_cases (cs : Chars) :
    (∃ n, coerce cs = Val.int n)
    ∨ (∃ s, coerce cs = Val.str s ∧ isDigits s.data = false) := by
  unfold coerce
  split
  · exact Or.inl ⟨_, rfl⟩
  · next h => exact Or.inr ⟨⟨cs⟩, rfl, by simpa using h⟩

theorem p1Match_digits {cs : Chars} {g : P1G} (h : p1Match cs = some g) :
    isDigits g.mtu = true := by
  unfold p1Match at h
  split at h
  · split at h
    · split at h
      · exact Option.noConfusion h
      · split at h
        · next hc =>
          injection h with h
          subst h
          simp only [Bool.and_eq_true] at hc
          exact hc.2
        · exact Option.noConfusion h
    · exact Option.noConfusion h
  · exact Option.noConfusion h

theorem p3Match_digits {cs : Chars} {g : P3G} (h : p3Match cs = some g) :
    isDigits g.plen = true := by
  unfold p3Match at h
  split at h
  · split at h
    · next hc =>
      injection h with h
      subst h
      simp only [Bool.and_eq_true] at hc
      exact hc.1.2
    · exact Option.noConfusion h
  · exact Option.noConfusion h

theorem munchDigits_isDigits {cs : Chars} {t r : Chars}
    (h : munchDigits cs = some (t, r)) : isDigits t = true := by
  unfold munchDigits at h
  split at h
  · next t' r' heq =>
    split at h
    · next hc => injection h with h; cases h; exact hc
    · exact Option.noConfusion h
  · exact Option.noConfusion h

theorem pktsMatch_digits {lead cs : Chars} {g : P5G} (h : pktsMatch lead cs = some g) :
    isDigits g.pk = true ∧ isDigits g.bs = true := by
  unfold pktsMatch at h
  split at h
  · exact Option.noConfusion h
  · split at h
    · exact Option.noConfusion h
    · split at h
      · exact Option.noConfusion h
      · next h2 =>
        split at h
        · exact Option.noConfusion h
        · split at h
          · exact Option.noConfusion h
          · next h4 =>
            split at h
            · exact Option.noConfusion h
            · injection h with h
              subst h
              exact ⟨munchDigits_isDigits h2, munchDigits_isDigits h4⟩

/-! Helper facts about the per-key properties. -/

theorem intfP_int (f : String) (n : Int) : intfP f (.int n) :=
  ⟨fun _ => ⟨n, rfl⟩, fun _ _ hc => Val.noConfusion hc, fun _ _ hm => Val.noConfusion hm⟩

theorem intfP_str (f : String) (s : String) (h1 : f ∉ intfIntNames) : intfP f (.str s) :=
  ⟨fun hm => absurd hm h1, fun _ _ hc => Val.noConfusion hc, fun _ _ hm => Val.noConfusion hm⟩

theorem intfP_notSpecial (f : String) (v : Val) (h1 : f ∉ intfIntNames)
    (h2 : f ≠ "counters") (h3 : f ≠ "ipv6") : intfP f v :=
  ⟨fun hm => absurd hm h1, fun hc => absurd hc h2, fun hm => absurd hm h3⟩

theorem intfP_coerce (f : String) (cs : Chars) (h1 : f ∉ intfIntNames) :
    intfP f (coerce cs) := by
  rcases coerce_cases cs with ⟨n, hn⟩ | ⟨s, hs, _⟩
  · rw [hn]; exact intfP_int f n
  · rw [hs]; exact intfP_str f s h1

theorem ctrP_int (g : String) (n : Int) : ctrP g (.int n) := fun _ => ⟨n, rfl⟩

theorem ctrP_notMem (g : String) (w : Val) (h : g ∉ ctrIntNames) : ctrP g w :=
  fun hm => absurd hm h

theorem ctrP_coerce (g : String) (cs : Chars) (hd : isDigits cs = true) :
    ctrP g (coerce cs) := by
  rw [coerce_digits hd]; exact ctrP_int g _

theorem ctrOKd_nil : ctrOKd [] := fun _ _ h => Option.noConfusion h

theorem ip6OKd_nil : ip6OKd [] := fun _ _ h => Option.noConfusion h

theorem intfOKd_nil : intfOKd [] := fun _ _ h => Option.noConfusion h

theorem ip6P_nonmap {w : Val} (h : ∀ de, w ≠ Val.map de) : ip6P w :=
  fun de hde => absurd hde (h de)

/-! Preservation of `resultIntOK` through the result-level operations. -/

theorem resultIntOK_nil : resultIntOK [] := fun _ _ h => Option.noConfusion h

theorem resultIntOK_ensure {res : Dict} {i : String} (hres : resultIntOK res) :
    resultIntOK (dictEnsure res i (.map [])) := by
  intro i' v hv d hd
  rw [lookupD_dictEnsure] at hv
  split at hv
  · cases hold : lookupD res i with
    | none =>
      rw [hold] at hv
      cases hv
      cases hd
      exact intfOKd_nil
    | some v0 =>
      rw [hold] at hv
      cases hv
      exact hres i v0 hold d hd
  · exact hres i' v hv d hd

theorem resultIntOK_modify {res : Dict} {i : String} {f : Dict → Dict}
    (hres : resultIntOK res) (hf : ∀ d, intfOKd d → intfOKd (f d)) :
    resultIntOK (dictModify res i (mapVal f)) := by
  intro i' v hv d hd
  rw [lookupD_dictModify] at hv
  split at hv
  · cases hold : lookupD res i with
    | none => rw [hold] at hv; cases hv
    | some v0 =>
      rw [hold] at hv
      injection hv with hv
      subst hv
      cases v0 with
      | map d0 =>
        have hd' : f d0 = d := by simpa [mapVal] using hd
        exact hd' ▸ hf d0 (hres i (Val.map d0) hold d0 rfl)
      | str s => exact absurd hd (by simp [mapVal])
      | int n => exact absurd hd (by simp [mapVal])
      | bool b => exact absurd hd (by simp [mapVal])
      | null => exact absurd hd (by simp [mapVal])
      | list l => exact absurd hd (by simp [mapVal])
  · exact hres i' v hv d hd

/-! Preservation of `intfOKd` through each branch body. -/

theorem intfOKd_hdrF {g : P1G} (hmtu : isDigits g.mtu = true) {d : Dict}
    (hd : intfOKd d) : intfOKd (hdrF g d) := by
  unfold hdrF
  refine pwAll_update _ d hd ?_
  intro kv hkv
  simp only [List.mem_cons, List.not_mem_nil, or_false] at hkv
  rcases hkv with rfl | rfl | rfl
  · exact intfP_coerce "interface" g.iface (by decide)
  · exact intfP_coerce "flags" g.flags (by decide)
  · rw [coerce_digits hmtu]; exact intfP_int _ _

theorem intfOKd_p2F {g : P2G} {d : Dict} (hd : intfOKd d) : intfOKd (p2F g d) := by
  unfold p2F nestUpd
  have h1 : intfOKd (dictEnsure d "ipv4" (.map [])) :=
    pwAll_ensure hd (intfP_notSpecial _ _ (by decide) (by decide) (by decide))
  exact pwAll_modify h1 fun w _ => intfP_notSpecial _ _ (by decide) (by decide) (by decide)

theorem ip6P_mapNil : ip6P (Val.map []) := by
  intro de hde
  injection hde with hde
  subst hde
  exact fun _ _ hu => Option.noConfusion hu

theorem ip6P_p3Upd {g : P3G} (hplen : isDigits g.plen = true) (w : Val) (hw : ip6P w) :
    ip6P (mapVal (fun e => dictUpdate e
      [("ip", coerce g.ip), ("prefixlen", coerce g.plen), ("scopeid", coerce g.scid)]) w) := by
  cases w with
  | map e =>
    intro de hde
    have hde' : dictUpdate e
        [("ip", coerce g.ip), ("prefixlen", coerce g.plen), ("scopeid", coerce g.scid)] = de := by
      simpa [mapVal] using hde
    subst hde'
    refine pwAll_update (P := fun f u => f = "prefixlen" → ∃ n, u = Val.int n) _ e
      (hw e rfl) ?_
    intro kv hkv
    simp only [List.mem_cons, List.not_mem_nil, or_false] at hkv
    rcases hkv with rfl | rfl | rfl
    · exact fun hf => absurd hf (show ("ip" : String) ≠ "prefixlen" by decide)
    · exact fun _ => ⟨digitsToNat g.plen, coerce_digits hplen⟩
    · exact fun hf => absurd hf (show ("scopeid" : String) ≠ "prefixlen" by decide)
  | str s => exact hw
  | int n => exact hw
  | bool b => exact hw
  | null => exact hw
  | list l => exact hw

theorem intfOKd_p3F {g : P3G} (hplen : isDigits g.plen = true) {d : Dict}
    (hd : intfOKd d) : intfOKd (p3F g d) := by
  unfold p3F nestUpd
  have h1 : intfOKd (dictEnsure d "ipv6" (.map [])) := by
    refine pwAll_ensure hd ⟨fun hm => absurd hm (by decide), fun hc => absurd hc (by decide),
      fun _ m hm => ?_⟩
    injection hm with hm
    subst hm
    exact ip6OKd_nil
  refine pwAll_modify h1 fun w hw => ?_
  refine ⟨fun hm => absurd hm (by decide), fun hc => absurd hc (by decide), fun _ m hm => ?_⟩
  cases w with
  | map m0 =>
    have hmm : dictModify (dictEnsure m0 ⟨g.ip⟩ (.map [])) ⟨g.ip⟩
        (mapVal fun e => dictUpdate e
          [("ip", coerce g.ip), ("prefixlen", coerce g.plen), ("scopeid", coerce g.scid)]) = m := by
      simpa [mapVal] using hm
    subst hmm
    have h2 : ip6OKd (dictEnsure m0 ⟨g.ip⟩ (.map [])) :=
      pwAll_ensure (P := fun _ w => ip6P w) (hw.2.2 rfl m0 rfl) ip6P_mapNil
    exact pwAll_modify (P := fun _ w => ip6P w) h2 fun w' hw' => ip6P_p3Upd hplen w' hw'
  | str s => exact absurd hm (by simp [mapVal])
  | int n => exact absurd hm (by simp [mapVal])
  | bool b => exact absurd hm (by simp [mapVal])
  | null => exact absurd hm (by simp [mapVal])
  | list l => exact absurd hm (by simp [mapVal])

theorem intfOKd_p4F {g : P4G} {d : Dict} (hd : intfOKd d) : intfOKd (p4F g d) := by
  unfold p4F
  have h1 : intfOKd (dictUpdate d [("type", .str ⟨g.ty⟩), ("destription", .str ⟨g.desc⟩)]) := by
    refine pwAll_update _ d hd ?_
    intro kv hkv
    simp only [List.mem_cons, List.not_mem_nil, or_false] at hkv
    rcases hkv with rfl | rfl
    · exact intfP_str "type" ⟨g.ty⟩ (by decide)
    · exact intfP_str "destription" ⟨g.desc⟩ (by decide)
  have h2 : intfOKd (setOptMac g.mac
      (dictUpdate d [("type", .str ⟨g.ty⟩), ("destription", .str ⟨g.desc⟩)])) := by
    cases g.mac with
    | some m => exact pwAll_set h1 (intfP_str _ _ (by decide))
    | none => exact h1
  cases g.txq with
  | some q => exact pwAll_set h2 (intfP_int _ _)
  | none => exact h2

theorem intfOKd_p9F {g : P9G} {d : Dict} (hd : intfOKd d) : intfOKd (p9F g d) := by
  unfold p9F
  have h1 : intfOKd (setOptDevInt g.di d) := by
    cases g.di with
    | some q => exact pwAll_set hd (intfP_int _ _)
    | none => exact hd
  exact pwAll_set h1 (intfP_str _ _ (by decide))

theorem ctrOKd_p5F {g : P5G} (hpk : isDigits g.pk = true) (hbs : isDigits g.bs = true)
    {c : Dict} (hc : ctrOKd c) : ctrOKd (p5F g c) := by
  unfold p5F
  refine pwAll_update _ c hc ?_
  intro kv hkv
  simp only [List.mem_cons, List.not_mem_nil, or_false] at hkv
  rcases hkv with rfl | rfl | rfl
  · exact ctrP_coerce _ _ hpk
  · exact ctrP_coerce _ _ hbs
  · exact ctrP_notMem "rx_value" (coerce g.value) (by decide)

theorem ctrOKd_p7F {g : P5G} (hpk : isDigits g.pk = true) (hbs : isDigits g.bs = true)
    {c : Dict} (hc : ctrOKd c) : ctrOKd (p7F g c) := by
  unfold p7F
  refine pwAll_update _ c hc ?_
  intro kv hkv
  simp only [List.mem_cons, List.not_mem_nil, or_false] at hkv
  rcases hkv with rfl | rfl | rfl
  · exact ctrP_coerce _ _ hpk
  · exact ctrP_coerce _ _ hbs
  · exact ctrP_notMem "tx_value" (coerce g.value) (by decide)

theorem ctrOKd_p6F {g : P6G} {c : Dict} (hc : ctrOKd c) : ctrOKd (p6F g c) := by
  unfold p6F
  refine pwAll_update _ c hc ?_
  intro kv hkv
  simp only [List.mem_cons, List.not_mem_nil, or_false] at hkv
  rcases hkv with rfl | rfl | rfl | rfl
  all_goals exact ctrP_int _ _

theorem ctrOKd_p8F {g : P8G} {c : Dict} (hc : ctrOKd c) : ctrOKd (p8F g c) := by
  unfold p8F
  refine pwAll_update _ c hc ?_
  intro kv hkv
  simp only [List.mem_cons, List.not_mem_nil, or_false] at hkv
  rcases hkv with rfl | rfl | rfl | rfl | rfl
  all_goals exact ctrP_int _ _

theorem intfP_counters_mapVal {fc : Dict → Dict} (hfc : ∀ c, ctrOKd c → ctrOKd (fc c))
    (w : Val) (hw : intfP "counters" w) : intfP "counters" (mapVal fc w) := by
  refine ⟨fun hm => absurd hm (by decide), fun _ c hc => ?_, fun h6 => absurd h6 (by decide)⟩
  cases w with
  | map c0 =>
    have hcc : fc c0 = c := by simpa [mapVal] using hc
    exact hcc ▸ hfc c0 (hw.2.1 rfl c0 rfl)
  | str s => exact absurd hc (by simp [mapVal])
  | int n => exact absurd hc (by simp [mapVal])
  | bool b => exact absurd hc (by simp [mapVal])
  | null => exact absurd hc (by simp [mapVal])
  | list l => exact absurd hc (by simp [mapVal])

theorem intfOKd_ctrEnsure {fc : Dict → Dict} (hfc : ∀ c, ctrOKd c → ctrOKd (fc c))
    {d : Dict} (hd : intfOKd d) :
    intfOKd (dictModify (dictEnsure d "counters" (.map [])) "counters" (mapVal fc)) := by
  have h1 : intfOKd (dictEnsure d "counters" (.map [])) := by
    refine pwAll_ensure hd ⟨fun hm => absurd hm (by decide), fun _ c hc => ?_,
      fun h6 => absurd h6 (by decide)⟩
    injection hc with hc
    subst hc
    exact ctrOKd_nil
  exact pwAll_modify h1 fun w hw => intfP_counters_mapVal hfc w hw

theorem intfOKd_ctrMod {fc : Dict → Dict} (hfc : ∀ c, ctrOKd c → ctrOKd (fc c))
    {d : Dict} (hd : intfOKd d) :
    intfOKd (dictModify d "counters" (mapVal fc)) :=
  pwAll_modify hd fun w hw => intfP_counters_mapVal hfc w hw

/-! `resultIntOK` is an invariant of the parsing loop. -/

theorem step_resultIntOK {st st' : St} {raw : Chars} (h : step st raw = .ok st')
    (hres : resultIntOK st.result) : resultIntOK st'.result := by
  rcases step_ok_cases h with rfl | ⟨g, hg, rfl⟩ | ⟨g, hg, hok⟩ | ⟨g, hg, hok⟩ | ⟨g, hg, hok⟩
    | ⟨g, hg, hok⟩ | ⟨g, hg, hok⟩ | ⟨g, hg, hok⟩ | ⟨g, hg, hok⟩ | ⟨g, hg, hok⟩
  · exact hres
  · exact resultIntOK_modify (resultIntOK_ensure hres)
      fun d hd => intfOKd_hdrF (p1Match_digits hg) hd
  · obtain ⟨i, _, rfl⟩ := onIntf_ok hok
    exact resultIntOK_modify hres fun d hd => intfOKd_p2F hd
  · obtain ⟨i, _, rfl⟩ := onIntf_ok hok
    exact resultIntOK_modify hres fun d hd => intfOKd_p3F (p3Match_digits hg) hd
  · obtain ⟨i, _, rfl⟩ := onIntf_ok hok
    exact resultIntOK_modify hres fun d hd => intfOKd_p4F hd
  · obtain ⟨i, _, rfl⟩ := onIntfCtr_ok hok
    exact resultIntOK_modify hres fun d hd =>
      intfOKd_ctrEnsure (fun c hc => ctrOKd_p5F (pktsMatch_digits hg).1 (pktsMatch_digits hg).2 hc) hd
  · obtain ⟨i, _, rfl⟩ := onCounter_ok hok
    exact resultIntOK_modify hres fun d hd => intfOKd_ctrMod (fun c hc => ctrOKd_p6F hc) hd
  · obtain ⟨i, _, rfl⟩ := onIntfCtr_ok hok
    exact resultIntOK_modify hres fun d hd =>
      intfOKd_ctrEnsure (fun c hc => ctrOKd_p7F (pktsMatch_digits hg).1 (pktsMatch_digits hg).2 hc) hd
  · obtain ⟨i, _, rfl⟩ := onCounter_ok hok
    exact resultIntOK_modify hres fun d hd => intfOKd_ctrMod (fun c hc => ctrOKd_p8F hc) hd
  · obtain ⟨i, _, rfl⟩ := onIntf_ok hok
    exact resultIntOK_modify hres fun d hd => intfOKd_p9F hd

theorem runSt_resultIntOK {lines : List Chars} {st stf : St}
    (h : runSt st lines = .ok stf) (hres : resultIntOK st.result) :
    resultIntOK stf.result := by
  induction lines generalizing st with
  | nil => cases h; exact hres
  | cons l ls ih =>
    simp only [runSt] at h
    cases hstep : step st l with
    | ok st1 =>
      rw [hstep] at h
      exact ih h (step_resultIntOK hstep hres)
    | error e =>
      rw [hstep] at h
      exact Except.noConfusion h

/-! `resultHdrOK` is an invariant of the parsing loop. -/

theorem hdrP_other (i f : String) (w : Val) (h1 : f ≠ "interface") (h2 : f ≠ "flags") :
    hdrP i f w :=
  ⟨fun hf => absurd hf h1, fun hf => absurd hf h2⟩

theorem hdrOKd_nil (i : String) : hdrOKd i [] := fun _ _ h => Option.noConfusion h

theorem resultHdrOK_nil : resultHdrOK [] := fun _ _ h => Option.noConfusion h

theorem resultHdrOK_ensure {res : Dict} {i : String} (hres : resultHdrOK res) :
    resultHdrOK (dictEnsure res i (.map [])) := by
  intro i' v hv d hd
  rw [lookupD_dictEnsure] at hv
  split at hv
  · next heq =>
    cases hold : lookupD res i with
    | none =>
      rw [hold] at hv
      cases hv
      cases hd
      exact heq ▸ hdrOKd_nil i
    | some v0 =>
      rw [hold] at hv
      cases hv
      exact heq ▸ hres i v0 hold d hd
  · exact hres i' v hv d hd

theorem resultHdrOK_modify {res : Dict} {i : String} {f : Dict → Dict}
    (hres : resultHdrOK res) (hf : ∀ d, hdrOKd i d → hdrOKd i (f d)) :
    resultHdrOK (dictModify res i (mapVal f)) := by
  intro i' v hv d hd
  rw [lookupD_dictModify] at hv
  split at hv
  · next heq =>
    cases hold : lookupD res i with
    | none => rw [hold] at hv; cases hv
    | some v0 =>
      rw [hold] at hv
      injection hv with hv
      subst hv
      cases v0 with
      | map d0 =>
        have hd' : f d0 = d := by simpa [mapVal] using hd
        exact heq ▸ (hd' ▸ hf d0 (heq ▸ hres i (Val.map d0) hold d0 rfl))
      | str s => exact absurd hd (by simp [mapVal])
      | int n => exact absurd hd (by simp [mapVal])
      | bool b => exact absurd hd (by simp [mapVal])
      | null => exact absurd hd (by simp [mapVal])
      | list l => exact absurd hd (by simp [mapVal])
  · exact hres i' v hv d hd

theorem hdrOKd_hdrF {g : P1G} {d : Dict} (hd : hdrOKd ⟨g.iface⟩ d) :
    hdrOKd ⟨g.iface⟩ (hdrF g d) := by
  unfold hdrF
  refine pwAll_update _ d hd ?_
  intro kv hkv
  simp only [List.mem_cons, List.not_mem_nil, or_false] at hkv
  rcases hkv with rfl | rfl | rfl
  · exact ⟨fun _ => rfl, fun hf => absurd hf (show ("interface" : String) ≠ "flags" by decide)⟩
  · refine ⟨fun hf => absurd hf (show ("flags" : String) ≠ "interface" by decide), fun _ => ?_⟩
    rcases coerce_cases g.flags with ⟨n, hn⟩ | ⟨s, hs, hsd⟩
    · rw [hn]; exact Or.inr ⟨n, rfl⟩
    · rw [hs]; exact Or.inl ⟨s, rfl, hsd⟩
  · exact hdrP_other _ "mtu" _ (by decide) (by decide)

theorem hdrOKd_p2F {i : String} {g : P2G} {d : Dict} (hd : hdrOKd i d) :
    hdrOKd i (p2F g d) := by
  unfold p2F nestUpd
  exact pwAll_modify
    (pwAll_ensure hd (hdrP_other i "ipv4" _ (by decide) (by decide)))
    fun w _ => hdrP_other i "ipv4" _ (by decide) (by decide)

theorem hdrOKd_p3F {i : String} {g : P3G} {d : Dict} (hd : hdrOKd i d) :
    hdrOKd i (p3F g d) := by
  unfold p3F nestUpd
  exact pwAll_modify
    (pwAll_ensure hd (hdrP_other i "ipv6" _ (by decide) (by decide)))
    fun w _ => hdrP_other i "ipv6" _ (by decide) (by decide)

theorem hdrOKd_p4F {i : String} {g : P4G} {d : Dict} (hd : hdrOKd i d) :
    hdrOKd i (p4F g d) := by
  unfold p4F
  have h1 : hdrOKd i (dictUpdate d
      [("type", .str ⟨g.ty⟩), ("destription", .str ⟨g.desc⟩)]) := by
    refine pwAll_update _ d hd ?_
    intro kv hkv
    simp only [List.mem_cons, List.not_mem_nil, or_false] at hkv
    rcases hkv with rfl | rfl
    · exact hdrP_other i "type" _ (by decide) (by decide)
    · exact hdrP_other i "destription" _ (by decide) (by decide)
  have h2 : hdrOKd i (setOptMac g.mac (dictUpdate d
      [("type", .str ⟨g.ty⟩), ("destription", .str ⟨g.desc⟩)])) := by
    cases g.mac with
    | some m => exact pwAll_set h1 (hdrP_other i "mac" _ (by decide) (by decide))
    | none => exact h1
  cases g.txq with
  | some q => exact pwAll_set h2 (hdrP_other i "txqueuelen" _ (by decide) (by decide))
  | none => exact h2

theorem hdrOKd_p9F {i : String} {g : P9G} {d : Dict} (hd : hdrOKd i d) :
    hdrOKd i (p9F g d) := by
  unfold p9F
  have h1 : hdrOKd i (setOptDevInt g.di d) := by
    cases g.di with
    | some q => exact pwAll_set hd (hdrP_other i "device_interrupt" _ (by decide) (by decide))
    | none => exact hd
  exact pwAll_set h1 (hdrP_other i "device_memory" _ (by decide) (by decide))

theorem hdrOKd_ctrEnsure {i : String} {fc : Dict → Dict} {d : Dict} (hd : hdrOKd i d) :
    hdrOKd i (dictModify (dictEnsure d "counters" (.map [])) "counters" (mapVal fc)) :=
  pwAll_modify
    (pwAll_ensure hd (hdrP_other i "counters" _ (by decide) (by decide)))
    fun w _ => hdrP_other i "counters" _ (by decide) (by decide)

theorem hdrOKd_ctrMod {i : String} {fc : Dict → Dict} {d : Dict} (hd : hdrOKd i d) :
    hdrOKd i (dictModify d "counters" (mapVal fc)) :=
  pwAll_modify hd fun w _ => hdrP_other i "counters" _ (by decide) (by decide)

theorem step_resultHdrOK {st st' : St} {raw : Chars} (h : step st raw = .ok st')
    (hres : resultHdrOK st.result) : resultHdrOK st'.result := by
  rcases step_ok_cases h with rfl | ⟨g, hg, rfl⟩ | ⟨g, hg, hok⟩ | ⟨g, hg, hok⟩ | ⟨g, hg, hok⟩
    | ⟨g, hg, hok⟩ | ⟨g, hg, hok⟩ | ⟨g, hg, hok⟩ | ⟨g, hg, hok⟩ | ⟨g, hg, hok⟩
  · exact hres
  · exact resultHdrOK_modify (resultHdrOK_ensure hres) fun d hd => hdrOKd_hdrF hd
  · obtain ⟨i, _, rfl⟩ := onIntf_ok hok
    exact resultHdrOK_modify hres fun d hd => hdrOKd_p2F hd
  · obtain ⟨i, _, rfl⟩ := onIntf_ok hok
    exact resultHdrOK_modify hres fun d hd => hdrOKd_p3F hd
  · obtain ⟨i, _, rfl⟩ := onIntf_ok hok
    exact resultHdrOK_modify hres fun d hd => hdrOKd_p4F hd
  · obtain ⟨i, _, rfl⟩ := onIntfCtr_ok hok
    exact resultHdrOK_modify hres fun d hd => hdrOKd_ctrEnsure hd
  · obtain ⟨i, _, rfl⟩ := onCounter_ok hok
    exact resultHdrOK_modify hres fun d hd => hdrOKd_ctrMod hd
  · obtain ⟨i, _, rfl⟩ := onIntfCtr_ok hok
    exact resultHdrOK_modify hres fun d hd => hdrOKd_ctrEnsure hd
  · obtain ⟨i, _, rfl⟩ := onCounter_ok hok
    exact resultHdrOK_modify hres fun d hd => hdrOKd_ctrMod hd
  · obtain ⟨i, _, rfl⟩ := onIntf_ok hok
    exact resultHdrOK_modify hres fun d hd => hdrOKd_p9F hd

theorem runSt_resultHdrOK {lines : List Chars} {st stf : St}
    (h : runSt st lines = .ok stf) (hres : resultHdrOK st.result) :
    resultHdrOK stf.result := by
  induction lines generalizing st with
  | nil => cases h; exact hres
  | cons l ls ih =>
    simp only [runSt] at h
    cases hstep : step st l with
    | ok st1 =>
      rw [hstep] at h
      exact ih h (step_resultHdrOK hstep hres)
    | error e =>
      rw [hstep] at h
      exact Except.noConfusion h

/-! Success of the branch helpers when their local is bound, and totality of
`step` once both locals are bound. -/

theorem onIntf_some {st : St} {i : String} (hi : st.curIntf = some i) (f : Dict → Dict) :
    onIntf st f = .ok { st with result := dictModify st.result i (mapVal f) } := by
  unfold onIntf
  rw [hi]

theorem onCounter_some {st : St} {j : String} (hc : st.curCounter = some j) (f : Dict → Dict) :
    onCounter st f = .ok { st with result := dictModify st.result j (mapVal fun d =>
      dictModify d "counters" (mapVal f)) } := by
  unfold onCounter
  rw [hc]

theorem onIntfCtr_some {st : St} {i : String} (hi : st.curIntf = some i) (f : Dict → Dict) :
    onIntfCtr st f = .ok
      { result := dictModify st.result i (mapVal fun d =>
          dictModify (dictEnsure d "counters" (.map [])) "counters" (mapVal f)),
        curIntf := some i, curCounter := some i } := by
  unfold onIntfCtr
  rw [hi]

theorem step_ok_of_bound {st : St} (raw : Chars) {i j : String}
    (hi : st.curIntf = some i) (hc : st.curCounter = some j) :
    ∃ st', step st raw = .ok st'
      ∧ (∃ i', st'.curIntf = some i') ∧ ∃ j', st'.curCounter = some j' := by
  simp only [step]
  split
  · exact ⟨st, rfl, ⟨i, hi⟩, ⟨j, hc⟩⟩
  · split
    · next g _ => exact ⟨p1St st g, rfl, ⟨⟨g.iface⟩, rfl⟩, ⟨j, hc⟩⟩
    · split
      · next g _ => exact ⟨_, onIntf_some hi (p2F g), ⟨i, hi⟩, ⟨j, hc⟩⟩
      · split
        · next g _ => exact ⟨_, onIntf_some hi (p3F g), ⟨i, hi⟩, ⟨j, hc⟩⟩
        · split
          · next g _ => exact ⟨_, onIntf_some hi (p4F g), ⟨i, hi⟩, ⟨j, hc⟩⟩
          · split
            · next g _ => exact ⟨_, onIntfCtr_some hi (p5F g), ⟨i, rfl⟩, ⟨i, rfl⟩⟩
            · split
              · next g _ => exact ⟨_, onCounter_some hc (p6F g), ⟨i, hi⟩, ⟨j, hc⟩⟩
              · split
                · next g _ => exact ⟨_, onIntfCtr_some hi (p7F g), ⟨i, rfl⟩, ⟨i, rfl⟩⟩
                · split
                  · next g _ => exact ⟨_, onCounter_some hc (p8F g), ⟨i, hi⟩, ⟨j, hc⟩⟩
                  · split
                    · next g _ => exact ⟨_, onIntf_some hi (p9F g), ⟨i, hi⟩, ⟨j, hc⟩⟩
                    · exact ⟨st, rfl, ⟨i, hi⟩, ⟨j, hc⟩⟩

theorem runSt_ok_of_bound (lines : List Chars) {st : St} {i j : String}
    (hi : st.curIntf = some i) (hc : st.curCounter = some j) :
    ∃ stf, runSt st lines = .ok stf := by
  induction lines generalizing st i j with
  | nil => exact ⟨st, rfl⟩
  | cons l ls ih =>
    obtain ⟨st1, hstep, ⟨i1, hi1⟩, ⟨j1, hc1⟩⟩ := step_ok_of_bound l hi hc
    obtain ⟨stf, hrun⟩ := ih hi1 hc1
    refine ⟨stf, ?_⟩
    simp only [runSt]
    rw [hstep]
    exact hrun

/-! Non-interference: lines that are not a header for interface `No` leave
its entry, and the locals' relation to it, unchanged. -/

theorem step_preserve {No : String} {st st' : St} {raw : Chars}
    (h : step st raw = .ok st')
    (hI : st.curIntf ≠ some No) (hC : st.curCounter ≠ some No)
    (hHdr : ∀ g, p1Match (preL raw) = some g → (⟨g.iface⟩ : String) ≠ No) :
    lookupD st'.result No = lookupD st.result No
      ∧ st'.curIntf ≠ some No ∧ st'.curCounter ≠ some No := by
  rcases step_ok_cases h with rfl | ⟨g, hg, rfl⟩ | ⟨g, hg, hok⟩ | ⟨g, hg, hok⟩ | ⟨g, hg, hok⟩
    | ⟨g, hg, hok⟩ | ⟨g, hg, hok⟩ | ⟨g, hg, hok⟩ | ⟨g, hg, hok⟩ | ⟨g, hg, hok⟩
  · exact ⟨rfl, hI, hC⟩
  · have hne : (⟨g.iface⟩ : String) ≠ No := hHdr g hg
    refine ⟨?_, fun hcon => hne (Option.some.inj hcon), hC⟩
    show lookupD (dictModify (dictEnsure st.result ⟨g.iface⟩ (.map [])) ⟨g.iface⟩
      (mapVal (hdrF g))) No = _
    rw [lookupD_dictModify, if_neg hne, lookupD_dictEnsure, if_neg hne]
  · obtain ⟨i, hi, rfl⟩ := onIntf_ok hok
    have hne : i ≠ No := fun e => hI (e ▸ hi)
    exact ⟨by rw [lookupD_dictModify, if_neg hne], hI, hC⟩
  · obtain ⟨i, hi, rfl⟩ := onIntf_ok hok
    have hne : i ≠ No := fun e => hI (e ▸ hi)
    exact ⟨by rw [lookupD_dictModify, if_neg hne], hI, hC⟩
  · obtain ⟨i, hi, rfl⟩ := onIntf_ok hok
    have hne : i ≠ No := fun e => hI (e ▸ hi)
    exact ⟨by rw [lookupD_dictModify, if_neg hne], hI, hC⟩
  · obtain ⟨i, hi, rfl⟩ := onIntfCtr_ok hok
    have hne : i ≠ No := fun e => hI (e ▸ hi)
    exact ⟨by rw [lookupD_dictModify, if_neg hne],
      fun hcon => hne (Option.some.inj hcon), fun hcon => hne (Option.some.inj hcon)⟩
  · obtain ⟨j, hj, rfl⟩ := onCounter_ok hok
    have hne : j ≠ No := fun e => hC (e ▸ hj)
    exact ⟨by rw [lookupD_dictModify, if_neg hne], hI, hC⟩
  · obtain ⟨i, hi, rfl⟩ := onIntfCtr_ok hok
    have hne : i ≠ No := fun e => hI (e ▸ hi)
    exact ⟨by rw [lookupD_dictModify, if_neg hne],
      fun hcon => hne (Option.some.inj hcon), fun hcon => hne (Option.some.inj hcon)⟩
  · obtain ⟨j, hj, rfl⟩ := onCounter_ok hok
    have hne : j ≠ No := fun e => hC (e ▸ hj)
    exact ⟨by rw [lookupD_dictModify, if_neg hne], hI, hC⟩
  · obtain ⟨i, hi, rfl⟩ := onIntf_ok hok
    have hne : i ≠ No := fun e => hI (e ▸ hi)
    exact ⟨by rw [lookupD_dictModify, if_neg hne], hI, hC⟩

theorem runSt_preserve {No : String} {lines : List Chars} {st stf : St}
    (h : runSt st lines = .ok stf)
    (hHdr : ∀ l ∈ lines, ∀ g, p1Match (preL l) = some g → (⟨g.iface⟩ : String) ≠ No)
    (hI : st.curIntf ≠ some No) (hC : st.curCounter ≠ some No) :
    lookupD stf.result No = lookupD st.result No
      ∧ stf.curIntf ≠ some No ∧ stf.curCounter ≠ some No := by
  induction lines generalizing st with
  | nil => cases h; exact ⟨rfl, hI, hC⟩
  | cons l ls ih =>
    simp only [runSt] at h
    cases hstep : step st l with
    | ok st1 =>
      rw [hstep] at h
      obtain ⟨e1, i1, c1⟩ := step_preserve hstep hI hC (hHdr l (by simp))
      obtain ⟨e2, i2, c2⟩ := ih h (fun l' hl' => hHdr l' (by simp [hl'])) i1 c1
      exact ⟨e2.trans e1, i2, c2⟩
    | error e =>
      rw [hstep] at h
      exact Except.noConfusion h

/-! Effect of a header line. -/

theorem step_hdr {st : St} {raw : Chars} {g : P1G} (hg : p1Match (preL raw) = some g) :
    step st raw = .ok (p1St st g) := by
  simp only [step]
  split
  · next he =>
    exfalso
    have hnil : preL raw = [] := List.isEmpty_iff.mp he
    rw [hnil] at hg
    exact Option.noConfusion hg
  · split
    · next g' hg' =>
      rw [hg] at hg'
      injection hg' with hg'
      rw [hg']
    · next hnone =>
      rw [hg] at hnone
      exact Option.noConfusion hnone

theorem p1St_lookup {st : St} {g : P1G} (hnone : lookupD st.result ⟨g.iface⟩ = none) :
    lookupD (p1St st g).result ⟨g.iface⟩ = some (.map (hdrF g [])) := by
  unfold p1St
  show lookupD (dictModify (dictEnsure st.result ⟨g.iface⟩ (.map [])) ⟨g.iface⟩
    (mapVal (hdrF g))) ⟨g.iface⟩ = _
  rw [lookupD_dictModify, if_pos rfl, lookupD_dictEnsure, if_pos rfl, hnone]
  rfl

theorem hdrF_nil {g : P1G} (hif : isDigits g.iface = false) (hfl : isDigits g.flags = false)
    (hmtu : isDigits g.mtu = true) :
    hdrF g [] = [("interface", .str ⟨g.iface⟩), ("flags", .str ⟨g.flags⟩),
      ("mtu", .int (digitsToNat g.mtu))] := by
  unfold hdrF
  rw [show coerce g.iface = .str ⟨g.iface⟩ from by simp [coerce, hif],
      show coerce g.flags = .str ⟨g.flags⟩ from by simp [coerce, hfl],
      coerce_digits hmtu]
  rfl

/-! Decomposition of a successful `runOut`. -/

theorem runOut_ok_state {out : String} {res : Dict} (h : runOut out = .ok res) :
    ∃ stf, runSt initSt (splitLinesStr out) = .ok stf ∧ stf.result = res := by
  unfold runOut cliParse at h
  cases hr : runSt initSt (splitLinesStr out) with
  | ok stf =>
    rw [hr] at h
    injection h with h
    exact ⟨stf, rfl, h⟩
  | error e =>
    rw [hr] at h
    exact Except.noConfusion h

/-! Claim theorems. -/

/-- C1: for every output string parsed by `Ifconfig.cli`, every field that
`IfconfigSchema` declares as int (mtu, prefixlen, txqueuelen, rx_pkts,
rx_bytes, rx_errors, rx_dropped, rx_overruns, rx_frame, tx_pkts, tx_bytes,
tx_errors, tx_dropped, tx_overruns, tx_carrier, tx_collisions,
device_interrupt) is stored in the returned dictionary as an integer: the
adapter performs the string-to-int coercion before validation. -/
theorem cli_int_fields_are_ints (out : String) (res : Dict)
    (h : runOut out = .ok res) : resultIntOK res := by
  obtain ⟨stf, hr, hres⟩ := runOut_ok_state h
  exact hres ▸ runSt_resultIntOK hr resultIntOK_nil

/-- Witness for C1 at a concrete output. -/
theorem cli_int_fields_are_ints_witness :
    runOut "eth0: flags=4163<UP,BROADCAST,RUNNING,MULTICAST>  mtu 1500"
        = .ok [("eth0", Val.map [("interface", .str "eth0"),
            ("flags", .str "4163<UP,BROADCAST,RUNNING,MULTICAST>"), ("mtu", .int 1500)])]
      ∧ resultIntOK [("eth0", Val.map [("interface", .str "eth0"),
            ("flags", .str "4163<UP,BROADCAST,RUNNING,MULTICAST>"), ("mtu", .int 1500)])] :=
  ⟨rfl, cli_int_fields_are_ints "eth0: flags=4163<UP,BROADCAST,RUNNING,MULTICAST>  mtu 1500"
    [("eth0", Val.map [("interface", .str "eth0"),
      ("flags", .str "4163<UP,BROADCAST,RUNNING,MULTICAST>"), ("mtu", .int 1500)])] rfl⟩

/-- C9 as stated is false: a header line whose interface name and flags
token consist only of digits stores them as integers, not strings (the `p1`
branch coerces every capture group through `int(v) if v.isdigit()`). -/
theorem header_digit_tokens_counterexample :
    runOut "1: flags=2 mtu 3"
      = .ok [("1", Val.map [("interface", Val.int 1), ("flags", Val.int 2),
          ("mtu", Val.int 3)])] := rfl

/-- C9 amended: the values stored under `interface` and `flags` are strings
except when the matched token consists only of digits, in which case they are
stored as integers — the `interface` value is exactly the coercion of the
record's own key, and the `flags` value is a non-digit string or an
integer. -/
theorem header_str_fields_amended (out : String) (res : Dict) (i : String)
    (d : Dict) (h : runOut out = .ok res) (hi : lookupD res i = some (.map d)) :
    (∀ w, lookupD d "interface" = some w → w = coerce i.data)
      ∧ (∀ w, lookupD d "flags" = some w →
          (∃ s, w = Val.str s ∧ isDigits s.data = false) ∨ ∃ n, w = Val.int n) := by
  obtain ⟨stf, hr, hres⟩ := runOut_ok_state h
  have hOKres : resultHdrOK res := hres ▸ runSt_resultHdrOK hr resultHdrOK_nil
  have hOK := hOKres i (.map d) hi d rfl
  exact ⟨fun w hw => (hOK "interface" w hw).1 rfl, fun w hw => (hOK "flags" w hw).2 rfl⟩

/-- Witness for the amended C9 at a concrete output. -/
theorem header_str_fields_amended_witness :
    runOut "eth0: flags=4163<UP>  mtu 1500"
        = .ok [("eth0", Val.map [("interface", .str "eth0"), ("flags", .str "4163<UP>"),
            ("mtu", .int 1500)])]
      ∧ (∀ w, lookupD [("interface", .str "eth0"), ("flags", .str "4163<UP>"),
          ("mtu", Val.int 1500)] "interface" = some w → w = coerce "eth0".data)
      ∧ (∀ w, lookupD [("interface", .str "eth0"), ("flags", .str "4163<UP>"),
          ("mtu", Val.int 1500)] "flags" = some w →
            (∃ s, w = Val.str s ∧ isDigits s.data = false) ∨ ∃ n, w = Val.int n) :=
  ⟨rfl, (header_str_fields_amended "eth0: flags=4163<UP>  mtu 1500"
      [("eth0", Val.map [("interface", .str "eth0"), ("flags", .str "4163<UP>"),
        ("mtu", .int 1500)])] "eth0"
      [("interface", .str "eth0"), ("flags", .str "4163<UP>"), ("mtu", .int 1500)]
      rfl rfl).1,
    (header_str_fields_amended "eth0: flags=4163<UP>  mtu 1500"
      [("eth0", Val.map [("interface", .str "eth0"), ("flags", .str "4163<UP>"),
        ("mtu", .int 1500)])] "eth0"
      [("interface", .str "eth0"), ("flags", .str "4163<UP>"), ("mtu", .int 1500)]
      rfl rfl).2⟩

/-- C4 as stated is false: `Ifconfig.cli` is not total — an output whose
first pattern-matching line is a detail line makes the branch body reference
the unbound local `intf_dict` (Python `UnboundLocalError`, the error value of
the embedding) instead of returning a dictionary. -/
theorem cli_detail_first_raises :
    runOut "inet 192.168.100.51  netmask 255.255.255.0  broadcast 192.168.100.255"
      = .error .intfUnbound := rfl

/-- C4 amended: the only failures are unbound-local references in the detail
branches; once `intf_dict` and `counter_dict` are both bound, processing any
further lines always completes and returns a state (hence a dictionary). -/
theorem cli_total_once_bound (lines : List Chars) (st : St) (i j : String)
    (hi : st.curIntf = some i) (hc : st.curCounter = some j) :
    ∃ stf, runSt st lines = .ok stf :=
  runSt_ok_of_bound lines hi hc

/-- Witness for the amended C4 at a concrete state and lines. -/
theorem cli_total_once_bound_witness :
    (⟨[], some "eth0", some "eth0"⟩ : St).curIntf = some "eth0"
      ∧ (⟨[], some "eth0", some "eth0"⟩ : St).curCounter = some "eth0"
      ∧ ∃ stf, runSt ⟨[], some "eth0", some "eth0"⟩
          ["RX errors 1  dropped 2  overruns 3  frame 4".data] = .ok stf :=
  ⟨rfl, rfl, cli_total_once_bound _ _ "eth0" "eth0" rfl rfl⟩

/-- C8: when the `output` argument is supplied, `Ifconfig.cli` executes no
device command and its result does not depend on the device at all; being a
pure function of `(interface, output)`, two calls with the same arguments
return the identical result dictionary, with the same keys in the same
insertion order and equal values. -/
theorem cli_no_execution_when_output_given (ex1 ex2 : String → String)
    (intf : Option String) (out : String) :
    ifconfigCliCall ex1 intf (some out) = ifconfigCliCall ex2 intf (some out)
      ∧ (ifconfigCliCall ex1 intf (some out)).2 = [] :=
  ⟨rfl, rfl⟩

/-- C5: `AnalyticsAsmbypassReportresults.rest` returns the decoded JSON
response unchanged (no keys added, removed, renamed, or values altered)
whenever that response is truthy, and returns the empty mapping exactly when
the decoded response is empty/falsy. -/
theorem rest_returns_json_unchanged (get : String → Val) :
    (pyTruthy (get restCmd) = true → restCall get = get restCmd)
      ∧ (restCall get = Val.map [] ↔ pyTruthy (get restCmd) = false) := by
  refine ⟨fun h => by simp [restCall, restResult, h], ?_, fun h => by simp [restCall, restResult, h]⟩
  intro h
  cases hT : pyTruthy (get restCmd) with
  | false => rfl
  | true =>
    exfalso
    have heq : restCall get = get restCmd := by simp [restCall, restResult, hT]
    have h2 : get restCmd = Val.map [] := heq.symm.trans h
    rw [h2] at hT
    simp [pyTruthy] at hT

/-- Witness for C5 at a concrete non-empty decoded response. -/
theorem rest_returns_json_unchanged_witness :
    pyTruthy ((fun _ => Val.map [("a", Val.int 1)]) restCmd) = true
      ∧ restCall (fun _ => Val.map [("a", Val.int 1)]) = Val.map [("a", Val.int 1)] :=
  ⟨rfl, (rest_returns_json_unchanged (fun _ => Val.map [("a", Val.int 1)])).1 rfl⟩

/-- C6: the descriptor declared by `IfconfigSchema` is well-formed under the
spec's construction invariants: at most one wildcard per mapping level, and
all Literal/Optional key names mutually unique within each level. -/
theorem ifconfig_schema_well_formed : wfSch ifconfigSchema = true := rfl

/-- C7: validating the value `{"mtu": "bad"}` against the mapping descriptor
whose single entry is the literal key `mtu` with scalar type int (the entry
declared at the interface level of `IfconfigSchema`) yields `ok = false` with
exactly one error: a `TypeMismatch` at path `mtu`, expected int, actual
string. -/
theorem mtu_type_mismatch_example :
    validateR mtuSchema (.map [("mtu", .str "bad")])
      = ⟨false, [.typeMismatch ["mtu"] .sint .kstr]⟩ := rfl

/-- C3: validating any non-empty mapping against the empty schema descriptor
declared by `AnalyticsAsmbypassReportresultsSchema` yields `ok = false` with
exactly one `UnexpectedKey` per top-level key, in value order (the engine's
default for mappings is closed). -/
theorem empty_schema_rejects_nonempty (kvs : List (String × Val)) (h : kvs ≠ []) :
    validateR analyticsSchema (.map kvs)
      = ⟨false, kvs.map fun kv => .unexpectedKey [] kv.1⟩ := by
  have hl : leftover Specs.nil kvs = kvs := by
    apply List.filter_eq_self.mpr
    intro a _
    rfl
  have he : validate analyticsSchema [] (.map kvs)
      = kvs.map fun kv => PErr.unexpectedKey [] kv.1 := by
    show ((leftover Specs.nil kvs).map fun kv => PErr.unexpectedKey [] kv.1) = _
    rw [hl]
  unfold validateR
  rw [he]
  cases kvs with
  | nil => exact absurd rfl h
  | cons a l => rfl

/-- Witness for C3 at a concrete non-empty mapping. -/
theorem empty_schema_rejects_nonempty_witness :
    ([("a", Val.int 1)] : List (String × Val)) ≠ []
      ∧ validateR analyticsSchema (.map [("a", Val.int 1)])
          = ⟨false, [.unexpectedKey [] "a"]⟩ :=
  ⟨fun hc => List.noConfusion hc,
    empty_schema_rejects_nonempty [("a", Val.int 1)] fun hc => List.noConfusion hc⟩

/-- C10: on a `loop  txqueuelen 1000  (Local Loopback)` type line (no MAC),
`type` is `loop`, `destription` is `Local Loopback`, `txqueuelen` is the
integer 1000 and no `mac` key is created (regex backtracking never captures
the word `txqueuelen` as the mac group); on an
`ether 00:50:b6:ff:4b:83  (Ethernet)` line, `mac` is the address string and
no `txqueuelen` key is created. -/
theorem type_line_mac_txqueuelen :
    runOut "lo: flags=73<UP,LOOPBACK,RUNNING>  mtu 65536\nloop  txqueuelen 1000  (Local Loopback)"
        = .ok [("lo", Val.map [("interface", .str "lo"),
            ("flags", .str "73<UP,LOOPBACK,RUNNING>"), ("mtu", .int 65536),
            ("type", .str "loop"), ("destription", .str "Local Loopback"),
            ("txqueuelen", .int 1000)])]
      ∧ runOut "eth0: flags=4163<UP>  mtu 1500\nether 00:50:b6:ff:4b:83  (Ethernet)"
        = .ok [("eth0", Val.map [("interface", .str "eth0"), ("flags", .str "4163<UP>"),
            ("mtu", .int 1500), ("type", .str "ether"), ("destription", .str "Ethernet"),
            ("mac", .str "00:50:b6:ff:4b:83")])] :=
  ⟨rfl, rfl⟩

/-- C2 as stated is false: on a header-only output whose flags token is all
digits, the record's `flags` value is coerced to an integer, so validation
additionally reports a `TypeMismatch` for the present key `flags` besides the
three `MissingRequiredKey` errors. -/
theorem header_only_validation_counterexample :
    runOut "eth0: flags=4163 mtu 1500"
        = .ok [("eth0", Val.map [("interface", .str "eth0"), ("flags", .int 4163),
            ("mtu", .int 1500)])]
      ∧ validateR ifconfigSchema (.map [("eth0", Val.map [("interface", .str "eth0"),
          ("flags", .int 4163), ("mtu", .int 1500)])])
        = ⟨false, [.typeMismatch ["eth0", "flags"] .sstr .kint,
            .missingKey ["eth0"] "type", .missingKey ["eth0"] "destription",
            .missingKey ["eth0"] "counters"]⟩ :=
  ⟨rfl, rfl⟩

/-- C2 amended: for an output in which some interface appears in exactly one
header line, followed (up to the next header line or the end of output) only
by lines matching no pattern, and whose interface name and flags token do not
consist solely of digits, the record built for that interface has exactly the
keys `interface`, `flags`, `mtu`; validating it against `IfconfigSchema`
yields exactly one `MissingRequiredKey` for each of `type`, `destription`,
`counters` at that interface's path and no error for the present keys. -/
theorem header_only_validation_amended
    (out : String) (pre mid post : List Chars) (h : Chars) (g : P1G) (res : Dict)
    (hsplit : splitLinesStr out = pre ++ h :: (mid ++ post))
    (hhdr : p1Match (preL h) = some g)
    (hif : isDigits g.iface = false)
    (hfl : isDigits g.flags = false)
    (hpre : ∀ l ∈ pre, ∀ g', p1Match (preL l) = some g' →
      (⟨g'.iface⟩ : String) ≠ ⟨g.iface⟩)
    (hmid : ∀ l ∈ mid, noMatchLine l = true)
    (hpost : post = [] ∨ ∃ h2 rest, post = h2 :: rest
      ∧ (∃ g2, p1Match (preL h2) = some g2 ∧ (⟨g2.iface⟩ : String) ≠ ⟨g.iface⟩)
      ∧ ∀ l ∈ rest, ∀ g', p1Match (preL l) = some g' →
          (⟨g'.iface⟩ : String) ≠ ⟨g.iface⟩)
    (hrun : runOut out = .ok res) :
    lookupD res ⟨g.iface⟩ = some (.map [("interface", .str ⟨g.iface⟩),
        ("flags", .str ⟨g.flags⟩), ("mtu", .int (digitsToNat g.mtu))])
      ∧ validateR ifconfigSchema (.map [(⟨g.iface⟩, Val.map
          [("interface", .str ⟨g.iface⟩), ("flags", .str ⟨g.flags⟩),
            ("mtu", .int (digitsToNat g.mtu))])])
        = ⟨false, [.missingKey [⟨g.iface⟩] "type", .missingKey [⟨g.iface⟩] "destription",
            .missingKey [⟨g.iface⟩] "counters"]⟩ := by
  refine ⟨?_, rfl⟩
  obtain ⟨stf, hstf, hres⟩ := runOut_ok_state hrun
  rw [hsplit] at hstf
  obtain ⟨st1, hrun1, hrest⟩ := runSt_append_ok hstf
  have hInv1 := runSt_preserve hrun1 hpre
    (fun hcon => Option.noConfusion hcon) (fun hcon => Option.noConfusion hcon)
  have hnone : lookupD st1.result ⟨g.iface⟩ = none := hInv1.1
  simp only [runSt] at hrest
  rw [step_hdr hhdr] at hrest
  obtain ⟨st2, hrun2, hrun3⟩ := runSt_append_ok hrest
  have hmid' := runSt_noMatch hmid (p1St st1 g)
  rw [hmid'] at hrun2
  injection hrun2 with hrun2
  subst hrun2
  have hlook : lookupD (p1St st1 g).result ⟨g.iface⟩ = some (.map (hdrF g [])) :=
    p1St_lookup hnone
  have hrec : hdrF g [] = [("interface", .str ⟨g.iface⟩), ("flags", .str ⟨g.flags⟩),
      ("mtu", .int (digitsToNat g.mtu))] := hdrF_nil hif hfl (p1Match_digits hhdr)
  rcases hpost with rfl | ⟨h2, rest, rfl, ⟨g2, hg2, hg2ne⟩, hrestNoI⟩
  · injection hrun3 with hrun3
    subst hrun3
    rw [← hres, hlook, hrec]
  · simp only [runSt] at hrun3
    rw [step_hdr hg2] at hrun3
    have hC2 : (p1St (p1St st1 g) g2).curCounter ≠ some ⟨g.iface⟩ := hInv1.2.2
    have hI2 : (p1St (p1St st1 g) g2).curIntf ≠ some ⟨g.iface⟩ :=
      fun hcon => hg2ne (Option.some.inj hcon)
    have hpres := runSt_preserve hrun3 hrestNoI hI2 hC2
    have hkeep : lookupD (p1St (p1St st1 g) g2).result ⟨g.iface⟩
        = lookupD (p1St st1 g).result ⟨g.iface⟩ := by
      show lookupD (dictModify (dictEnsure (p1St st1 g).result ⟨g2.iface⟩ (.map []))
        ⟨g2.iface⟩ (mapVal (hdrF g2))) ⟨g.iface⟩ = _
      rw [lookupD_dictModify, if_neg hg2ne, lookupD_dictEnsure, if_neg hg2ne]
    rw [← hres, hpres.1, hkeep, hlook, hrec]

/-- Witness for the amended C2 at a concrete single-header output. -/
theorem header_only_validation_amended_witness :
    runOut "eth0: flags=4163<UP>  mtu 1500"
        = .ok [("eth0", Val.map [("interface", .str "eth0"), ("flags", .str "4163<UP>"),
            ("mtu", .int 1500)])]
      ∧ lookupD [("eth0", Val.map [("interface", .str "eth0"), ("flags", .str "4163<UP>"),
          ("mtu", Val.int 1500)])] "eth0"
        = some (.map [("interface", .str "eth0"), ("flags", .str "4163<UP>"),
            ("mtu", .int 1500)])
      ∧ validateR ifconfigSchema (.map [("eth0", Val.map [("interface", .str "eth0"),
          ("flags", .str "4163<UP>"), ("mtu", .int 1500)])])
        = ⟨false, [.missingKey ["eth0"] "type", .missingKey ["eth0"] "destription",
            .missingKey ["eth0"] "counters"]⟩ := by
  have hmain := header_only_validation_amended "eth0: flags=4163<UP>  mtu 1500"
    [] [] [] "eth0: flags=4163<UP>  mtu 1500".data
    ⟨"eth0".data, "4163<UP>".data, "1500".data⟩
    [("eth0", Val.map [("interface", .str "eth0"), ("flags", .str "4163<UP>"),
      ("mtu", .int 1500)])]
    rfl rfl rfl rfl
    (fun l hl => absurd hl (List.not_mem_nil l))
    (fun l hl => absurd hl (List.not_mem_nil l))
    (Or.inl rfl) rfl
  exact ⟨rfl, hmain.1, hmain.2⟩

end Genie
